import Mathlib

/-!
# Deployment orchestration core (`app/deploy.go`)

A shallow embedding of `vendor/github.com/tsuru/tsuru/app/deploy.go`:
the deploy-kind classifier, the capability dispatcher, the build pipeline,
the deploy history projection and the legacy migration job, followed by the
properties established about them.

Go values of type `(string, error)` are kept as pairs; calls made to
collaborators (provisioner capabilities, builder, image registry, database)
are recorded in an explicit call trace.
-/

set_option autoImplicit false

namespace Tsuru

/-! ## Data model -/

/-- The Go type `DeployKind` is a string type. -/
abbrev DeployKind := String

def DeployArchiveURL : DeployKind := "archive-url"
def DeployGit : DeployKind := "git"
def DeployImage : DeployKind := "image"
def DeployRollback : DeployKind := "rollback"
def DeployUpload : DeployKind := "upload"
def DeployUploadBuild : DeployKind := "uploadbuild"
def DeployRebuild : DeployKind := "rebuild"

/-- The seven declared constants of `DeployKind`. -/
def allKinds : List DeployKind :=
  [DeployArchiveURL, DeployGit, DeployImage, DeployRollback, DeployUpload,
   DeployUploadBuild, DeployRebuild]

/-- Errors handed back by collaborators (provisioner, builder, registry,
database); their content is never inspected by `deploy.go`. -/
abbrev ExtError := String

/-- A pointer to the audit record (`*event.Event`) threaded through a deploy. -/
abbrev EventRef := Nat

/-- An `io.ReadCloser` handed in with an upload; only its presence matters here. -/
abbrev FileStream := List Nat

/-- The part of `App` that `deploy.go` reads or writes. -/
structure App where
  Name : String
  Platform : String
  UpdatePlatform : Bool
  Deploys : Nat
  Teams : List String
  Pool : String
  deriving DecidableEq, Repr

/-- `App.GetPlatform`. -/
def App.GetPlatform (a : App) : String := a.Platform

/-- The Go struct `DeployOptions` (the output stream is left out: it is only
handed to the log writer). -/
structure DeployOptions where
  App : App
  Commit : String
  ArchiveURL : String
  FileSize : Int
  File : Option FileStream
  User : String
  Image : String
  Origin : String
  Rollback : Bool
  Build : Bool
  Event : Option EventRef
  Kind : DeployKind
  Message : String
  deriving DecidableEq, Repr

/-! ## Classifier -/

/-- `(*DeployOptions).GetOrigin`. -/
def DeployOptions.GetOrigin (o : DeployOptions) : String :=
  if o.Origin ≠ "" then o.Origin
  else if o.Commit ≠ "" then "git"
  else ""

/-- `(*DeployOptions).GetKind`: the returned kind, and the receiver after the
deferred `o.Kind = kind`. -/
def DeployOptions.GetKind (o : DeployOptions) : DeployKind × DeployOptions :=
  let kind : DeployKind :=
    if o.Rollback then DeployRollback
    else if o.Image ≠ "" then DeployImage
    else if o.File ≠ none then
      (if o.Build then DeployUploadBuild else DeployUpload)
    else if o.Commit ≠ "" then DeployGit
    else DeployArchiveURL
  (kind, { o with Kind := kind })

/-! ## Provisioner capabilities and collaborators -/

/-- `builder.BuildOpts`. -/
structure BuildOpts where
  BuildFromFile : Bool
  ArchiveURL : String
  ArchiveFile : Option FileStream
  ArchiveSize : Int
  Rebuild : Bool
  ImageID : String
  deriving DecidableEq, Repr

/-- What a capability call hands back: the Go pair `(string, error)`. -/
abbrev CallResult := String × Option ExtError

/-- Modelled from the spec: the `provision` package is not among the sources.
A provisioner is a backend satisfying zero or more capability interfaces
(spec section 6); a field is `some f` exactly when the Go type assertion to
that interface succeeds, `f` being the interface method. `BuilderDeploy`
holds the `Deploy` method used by the build pipeline. -/
structure Provisioner where
  Name : String
  BuilderDeploy : Option (App → String → EventRef → CallResult)
  ImageDeployer : Option (App → String → EventRef → CallResult)
  UploadDeployer : Option (App → Option FileStream → Int → Bool → EventRef → CallResult)
  RollbackableDeployer : Option (App → String → EventRef → CallResult)
  RebuildableDeployer : Option (App → EventRef → CallResult)
  ArchiveDeployer : Option (App → String → EventRef → CallResult)

/-- Modelled from the spec: the `builder` package is not among the sources.
`Build(prov, app, evt, opts)` returns an image identifier or an error. -/
structure Builder where
  Build : Provisioner → App → EventRef → BuildOpts → CallResult

/-- The errors `Deploy` and `deployToProvisioner` can return. -/
inductive DeployError where
  /-- An error of a collaborator, returned unchanged. -/
  | external (e : ExtError)
  /-- A fresh error made by `errors.Errorf`. -/
  | errorf (msg : String)
  /-- The Go value `provision.ProvisionerNotSupported{Prov, Action}`. -/
  | ProvisionerNotSupported (Prov : Provisioner) (Action : String)

/-- Calls observed on collaborators, in program order. -/
inductive Call where
  | GetAppImageBySuffix (appName suffix : String)
  | LogWriterAsync (app : App)
  | SetLogWriter (evt : EventRef)
  | LogWriterClose (app : App)
  | Build (prov : String) (app : App) (evt : EventRef) (opts : BuildOpts)
  | Deploy (app : App) (imageID : String) (evt : EventRef)
  | ImageDeploy (app : App) (image : String) (evt : EventRef)
  | UploadDeploy (app : App) (file : Option FileStream) (size : Int) (build : Bool)
      (evt : EventRef)
  | Rollback (app : App) (image : String) (evt : EventRef)
  | Rebuild (app : App) (evt : EventRef)
  | ArchiveDeploy (app : App) (archiveURL : String) (evt : EventRef)
  | RoutesRebuildOrEnqueue (appName : String)
  | incrementDeploy (app : App)
  | logErrorf (app : App)
  | SetUpdatePlatform (app : App) (value : Bool)
  deriving DecidableEq, Repr

/-- The collaborators `deploy.go` reaches through package-level functions
and `App` methods that are not among the sources. -/
structure Env where
  /-- `(*App).getProvisioner`. -/
  getProvisioner : App → Except ExtError Provisioner
  /-- `(*App).getBuilder`. -/
  getBuilder : App → Except ExtError Builder
  /-- `image.GetAppImageBySuffix`. -/
  GetAppImageBySuffix : String → String → Except ExtError String
  /-- The result of the database update inside `incrementDeploy`. -/
  incrementDeployUpdate : App → Option ExtError

/-- The Go result `(string, error)` of a deploy together with the calls made. -/
structure Outcome where
  imageID : String
  err : Option DeployError
  calls : List Call

/-- The outcome of `return deployer.M(...)`: one call, its result returned as is. -/
def Outcome.ofCall (c : Call) (r : CallResult) : Outcome :=
  { imageID := r.1, err := r.2.map DeployError.external, calls := [c] }

/-! ## Regular expressions -/

/-- The anchored tail `[0-9]+$`: one or more ASCII digits up to the end of the text. -/
def digitsToEnd : List Char → Bool
  | [] => false
  | d :: ds => (d :: ds).all Char.isDigit

/-- Whether `v[0-9]+$` matches starting at the head of the text. -/
def reImageVersion.matchAt : List Char → Bool
  | c :: rest => c = 'v' && digitsToEnd rest
  | [] => false

/-- The leftmost match of `reImageVersion = regexp.MustCompile("v[0-9]+$")`. -/
def reImageVersion.find : List Char → Option (List Char)
  | [] => none
  | c :: cs => if reImageVersion.matchAt (c :: cs) then some (c :: cs) else reImageVersion.find cs

/-- `reImageVersion.MatchString`. -/
def reImageVersion.MatchString (s : String) : Bool :=
  (reImageVersion.find s.data).isSome

/-- `reImageVersion.FindAllStringSubmatch(s, -1)`: a match runs to the end of
the text, so there is at most one, and the pattern has no groups. -/
def reImageVersion.FindAllStringSubmatch (s : String) : List (List String) :=
  match reImageVersion.find s.data with
  | some m => [[String.mk m]]
  | none => []

/-- Whether `:v[0-9]+$` (the pattern compiled inside `Deploy`) matches
starting at the head of the text. -/
def reFullImage.matchAt : List Char → Bool
  | c :: rest => c = ':' && reImageVersion.matchAt rest
  | [] => false

/-- `regexp.MustCompile(":v[0-9]+$").MatchString`. -/
def reFullImage.MatchString (s : String) : Bool :=
  go s.data
where
  /-- Try every start position from the left. -/
  go : List Char → Bool
    | [] => false
    | c :: cs => reFullImage.matchAt (c :: cs) || go cs

/-! ## Dispatcher and build pipeline -/

/-- `builderDeploy`; `deploy` is the `Deploy` method of `prov` seen as a
`provision.BuilderDeploy`. -/
def builderDeploy (env : Env) (prov : Provisioner)
    (deploy : App → String → EventRef → CallResult)
    (opts : DeployOptions) (evt : EventRef) (isRebuild : Bool) : Outcome :=
  let buildOpts : BuildOpts :=
    { BuildFromFile := opts.Build
      ArchiveURL := opts.ArchiveURL
      ArchiveFile := opts.File
      ArchiveSize := opts.FileSize
      Rebuild := isRebuild
      ImageID := opts.Image }
  match env.getBuilder opts.App with
  | .error e => { imageID := "", err := some (.external e), calls := [] }
  | .ok build =>
    let built := build.Build prov opts.App evt buildOpts
    let buildCall := Call.Build prov.Name opts.App evt buildOpts
    match built.2 with
    | some e => { imageID := "", err := some (.external e), calls := [buildCall] }
    | none =>
      let r := deploy opts.App built.1 evt
      { imageID := r.1, err := r.2.map DeployError.external,
        calls := [buildCall, Call.Deploy opts.App built.1 evt] }

/-- `deployToProvisioner`. -/
def deployToProvisioner (env : Env) (opts : DeployOptions) (evt : EventRef) : Outcome :=
  match env.getProvisioner opts.App with
  | .error e => { imageID := "", err := some (.external e), calls := [] }
  | .ok prov =>
    let opts := if opts.Kind = "" then opts.GetKind.2 else opts
    if opts.App.GetPlatform = "" ∧ (opts.Kind ≠ DeployImage ∧ opts.Kind ≠ DeployRollback) then
      { imageID := "",
        err := some (.errorf "can't deploy app without platform, if it's not an image or rollback"),
        calls := [] }
    else
      let notSupported : Outcome :=
        { imageID := "",
          err := some (.ProvisionerNotSupported prov (opts.Kind ++ " deploy")),
          calls := [] }
      if opts.Kind = DeployRollback then
        match prov.RollbackableDeployer with
        | some rollback =>
          Outcome.ofCall (Call.Rollback opts.App opts.Image evt) (rollback opts.App opts.Image evt)
        | none => notSupported
      else if opts.Kind = DeployImage then
        match prov.BuilderDeploy with
        | some deploy => builderDeploy env prov deploy opts evt false
        | none =>
          match prov.ImageDeployer with
          | some imageDeploy =>
            Outcome.ofCall (Call.ImageDeploy opts.App opts.Image evt)
              (imageDeploy opts.App opts.Image evt)
          | none => notSupported
      else if opts.Kind = DeployUpload ∨ opts.Kind = DeployUploadBuild then
        match prov.BuilderDeploy with
        | some deploy => builderDeploy env prov deploy opts evt false
        | none =>
          match prov.UploadDeployer with
          | some uploadDeploy =>
            Outcome.ofCall (Call.UploadDeploy opts.App opts.File opts.FileSize opts.Build evt)
              (uploadDeploy opts.App opts.File opts.FileSize opts.Build evt)
          | none => notSupported
      else if opts.Kind = DeployRebuild then
        match prov.BuilderDeploy with
        | some deploy => builderDeploy env prov deploy opts evt true
        | none =>
          match prov.RebuildableDeployer with
          | some rebuild => Outcome.ofCall (Call.Rebuild opts.App evt) (rebuild opts.App evt)
          | none => notSupported
      else
        match prov.BuilderDeploy with
        | some deploy => builderDeploy env prov deploy opts evt false
        | none =>
          match prov.ArchiveDeployer with
          | some archiveDeploy =>
            Outcome.ofCall (Call.ArchiveDeploy opts.App opts.ArchiveURL evt)
              (archiveDeploy opts.App opts.ArchiveURL evt)
          | none => notSupported

/-- `incrementDeploy`: the update error, and the application afterwards. -/
def incrementDeploy (env : Env) (app : App) : Option ExtError × App :=
  match env.incrementDeployUpdate app with
  | none => (none, { app with Deploys := app.Deploys + 1 })
  | some e => (some e, app)

/-- `Deploy`. -/
def Deploy (env : Env) (opts : DeployOptions) : Outcome :=
  match opts.Event with
  | none => { imageID := "", err := some (.errorf "missing event in deploy opts"), calls := [] }
  | some evt =>
    let resolved : Except ExtError (DeployOptions × List Call) :=
      if opts.Rollback ∧ ¬ reFullImage.MatchString opts.Image then
        match env.GetAppImageBySuffix opts.App.Name opts.Image with
        | .error e => .error e
        | .ok imageName =>
          .ok ({ opts with Image := imageName },
               [Call.GetAppImageBySuffix opts.App.Name opts.Image])
      else .ok (opts, [])
    match resolved with
    | .error e =>
      { imageID := "", err := some (.external e),
        calls := [Call.GetAppImageBySuffix opts.App.Name opts.Image] }
    | .ok (opts, resolveCalls) =>
      let opened := [Call.LogWriterAsync opts.App, Call.SetLogWriter evt]
      let r := deployToProvisioner env opts evt
      let rebuilt := [Call.RoutesRebuildOrEnqueue opts.App.Name]
      let closed := [Call.LogWriterClose opts.App]
      match r.err with
      | some e =>
        { imageID := "", err := some e,
          calls := resolveCalls ++ opened ++ r.calls ++ rebuilt ++ closed }
      | none =>
        let inc := incrementDeploy env opts.App
        let warned := if inc.1.isSome then [Call.logErrorf inc.2] else []
        let updated :=
          if inc.2.UpdatePlatform then [Call.SetUpdatePlatform inc.2 false] else []
        { imageID := r.imageID, err := none,
          calls := resolveCalls ++ opened ++ r.calls ++ rebuilt
            ++ [Call.incrementDeploy opts.App] ++ warned ++ updated ++ closed }

/-! ## Time -/

/-- Go `time.Duration`: a count of nanoseconds held in an `int64`. -/
abbrev Duration := Int

def minDuration : Duration := -(2 ^ 63)
def maxDuration : Duration := 2 ^ 63 - 1

/-- Whether an integer is representable as an `int64`. -/
def isInt64 (x : Int) : Prop := -(2 ^ 63) ≤ x ∧ x < 2 ^ 63

instance (x : Int) : Decidable (isInt64 x) := by unfold isInt64; infer_instance

/-- Two-complement wrap-around of `int64` arithmetic. -/
def wrapInt64 (x : Int) : Int := (x + 2 ^ 63) % 2 ^ 64 - 2 ^ 63

/-- Go `time.Time` without a monotonic reading (as decoded from BSON): the
instant as nanoseconds since the zero time. Go keeps it as `int64` seconds
and a nanosecond part in `[0, 1e9)`, so the representable instants are those
of `Time.valid`. -/
structure Time where
  ns : Int
  deriving DecidableEq, Repr

/-- The instants a `time.Time` can hold: the seconds fit an `int64`. -/
def Time.valid (t : Time) : Prop :=
  -(2 ^ 63 * 10 ^ 9) ≤ t.ns ∧ t.ns < 2 ^ 63 * 10 ^ 9

instance (t : Time) : Decidable t.valid := by unfold Time.valid; infer_instance

/-- Wrap-around of the `int64` seconds field, the nanosecond part kept. -/
def wrapTime (x : Int) : Int :=
  (x + 2 ^ 63 * 10 ^ 9) % (2 ^ 64 * 10 ^ 9) - 2 ^ 63 * 10 ^ 9

/-- `Time.Add`: the seconds field is advanced with `int64` arithmetic. -/
def Time.Add (t : Time) (d : Duration) : Time := ⟨wrapTime (t.ns + d)⟩

/-- `Time.Before`. -/
def Time.Before (t u : Time) : Bool := decide (t.ns < u.ns)

/-- `Time.Sub`: the difference when it fits a `Duration`, saturated otherwise. -/
def Time.Sub (t u : Time) : Duration :=
  let d := wrapInt64 (t.ns - u.ns)
  if u.Add d = t then d
  else if t.Before u then minDuration
  else maxDuration

/-! ## Audit records -/

/-- `bson.ObjectId` is a string type. -/
abbrev ObjectId := String

/-- The Go struct `DeployData`. -/
structure DeployData where
  ID : ObjectId
  App : String
  Timestamp : Time
  Duration : Duration
  Commit : String
  Error : String
  Image : String
  Log : String
  User : String
  Origin : String
  CanRollback : Bool
  RemoveDate : Time
  Diff : String
  deriving DecidableEq, Repr

/-- Modelled from the spec: the `event` package is not among the sources. A
payload slot of an audit record is opaque; it either decodes to a document,
of which the string-valued fields are kept, or fails to decode. -/
inductive Raw where
  | doc (fields : List (String × String))
  | undecodable
  deriving DecidableEq, Repr

/-- Reading a key of a Go `map[string]string`: the empty string when absent. -/
def mapGet (m : List (String × String)) (key : String) : String :=
  (m.lookup key).getD ""

structure Target where
  Type_ : String
  Value : String
  deriving DecidableEq, Repr

structure Owner where
  Type_ : String
  Name : String
  deriving DecidableEq, Repr

structure Kind where
  Type_ : String
  Name : String
  deriving DecidableEq, Repr

/-- `permission.PermissionContext`. -/
structure PermissionContext where
  CtxType : String
  Value : String
  deriving DecidableEq, Repr

/-- `event.AllowedPermission`. -/
structure AllowedPermission where
  Scheme : String
  Contexts : List PermissionContext
  deriving DecidableEq, Repr

/-- Modelled from the spec: the `event` package is not among the sources. The
audit record of spec section 3: unique id, target, owner, kind, start and end
time, error text, log, removal date, allow-list and the three payload slots. -/
structure Event where
  UniqueID : ObjectId
  Target : Target
  Owner : Owner
  Kind : Kind
  StartTime : Time
  EndTime : Time
  Error : String
  Log : String
  RemoveDate : Time
  Allowed : AllowedPermission
  StartCustomData : Raw
  OtherCustomData : Raw
  EndCustomData : Raw
  deriving DecidableEq, Repr

def TargetTypeApp : String := "app"
def OwnerTypeUser : String := "user"
def KindTypePermission : String := "permission"
def PermAppDeploy : String := "app.deploy"
def PermAppReadEvents : String := "app.read.events"
def CtxTeam : String := "team"
def CtxApp : String := "app"
def CtxPool : String := "pool"

/-- The zero value of the Go struct `App`. -/
def App.zero : App :=
  { Name := "", Platform := "", UpdatePlatform := false, Deploys := 0, Teams := [], Pool := "" }

/-- The zero value of the Go struct `DeployOptions` (`var startOpts DeployOptions`). -/
def DeployOptions.zero : DeployOptions :=
  { App := App.zero, Commit := "", ArchiveURL := "", FileSize := 0, File := none, User := "",
    Image := "", Origin := "", Rollback := false, Build := false, Event := none, Kind := "",
    Message := "" }

/-- Modelled from the spec: the string-valued fields of a `DeployOptions`
written to a payload slot (`File`, `OutputStream` and `Event` are tagged
`bson:"-"`). -/
def DeployOptions.encode (o : DeployOptions) : Raw :=
  .doc [("commit", o.Commit), ("archiveurl", o.ArchiveURL), ("user", o.User),
        ("image", o.Image), ("origin", o.Origin), ("kind", o.Kind), ("message", o.Message)]

/-- Modelled from the spec: the read accessor `evt.StartData(&startOpts)` for
the start payload slot, decoding into a zero `DeployOptions`. -/
def Event.StartData (evt : Event) : Except ExtError DeployOptions :=
  match evt.StartCustomData with
  | .undecodable => .error "start data does not decode"
  | .doc m =>
    .ok { DeployOptions.zero with
          Commit := mapGet m "commit", ArchiveURL := mapGet m "archiveurl",
          User := mapGet m "user", Image := mapGet m "image", Origin := mapGet m "origin",
          Kind := mapGet m "kind", Message := mapGet m "message" }

/-- Modelled from the spec: the read accessor `evt.OtherData(&otherData)`
decoding into a `map[string]string`. -/
def Event.OtherData (evt : Event) : Except ExtError (List (String × String)) :=
  match evt.OtherCustomData with
  | .undecodable => .error "other data does not decode"
  | .doc m => .ok m

/-- Modelled from the spec: the read accessor `evt.EndData(&endData)` decoding
into a `map[string]string`. -/
def Event.EndData (evt : Event) : Except ExtError (List (String × String)) :=
  match evt.EndCustomData with
  | .undecodable => .error "end data does not decode"
  | .doc m => .ok m

/-! ## Deploy history reader -/

/-- `eventToDeployData`; `validImages` is `none` for a nil `set.Set`. -/
def eventToDeployData (evt : Event) (validImages : Option (List String)) (full : Bool) :
    DeployData :=
  let data : DeployData :=
    { ID := evt.UniqueID
      App := evt.Target.Value
      Timestamp := evt.StartTime
      Duration := evt.EndTime.Sub evt.StartTime
      Error := evt.Error
      User := evt.Owner.Name
      Commit := "", Image := "", Log := "", Origin := "", CanRollback := false,
      RemoveDate := ⟨0⟩, Diff := "" }
  let data :=
    match evt.StartData with
    | .ok startOpts => { data with Commit := startOpts.Commit, Origin := startOpts.GetOrigin }
    | .error _ => data
  let data :=
    if full then
      let data := { data with Log := evt.Log }
      match evt.OtherData with
      | .ok otherData => { data with Diff := mapGet otherData "diff" }
      | .error _ => data
    else data
  match evt.EndData with
  | .ok endData =>
    let data := { data with Image := mapGet endData "image" }
    match validImages with
    | some valid =>
      let data := { data with CanRollback := decide (data.Image ∈ valid) }
      if reImageVersion.MatchString data.Image then
        match reImageVersion.FindAllStringSubmatch data.Image with
        | (m :: _) :: _ => { data with Image := m }
        | _ => data
      else data
    | none => data
  | .error _ => data

/-! ## Legacy migration job -/

/-- Errors of the database layer; `duplicateKey` is what `mgo.IsDup` recognises. -/
inductive StoreError where
  | duplicateKey
  | other (e : ExtError)
  deriving DecidableEq, Repr

/-- `mgo.IsDup`. -/
def IsDup : Option StoreError → Bool
  | some .duplicateKey => true
  | _ => false

/-- Calls made on the database layer by the migration job, in program order. -/
inductive DbCall where
  | Conn
  | Find
  | Next
  | GetByName (name : String)
  | RawInsert (id : ObjectId) (result : Option StoreError)
  | IterClose
  | ConnClose
  deriving DecidableEq, Repr

/-- The collaborators of the migration job. -/
structure MigrateEnv where
  /-- The error of `db.Conn()`, if any. -/
  Conn : Option StoreError
  /-- The documents the cursor over the `deploys` collection yields, in order. -/
  deploys : List DeployData
  /-- What `iter.Close()` reports once the cursor is exhausted. -/
  iterClose : Option StoreError
  /-- `GetByName`. -/
  GetByName : String → Except ExtError App
  /-- A failure of an insert other than a uniqueness violation, given the
  stored records and the record to insert. -/
  insertFault : List Event → Event → Option ExtError

/-- Modelled from the spec: the event store is "an append-only record store
keyed by unique id" whose insert "must signal a distinguishable duplicate
key condition". An insert of an id already stored reports `duplicateKey` and
stores nothing; otherwise it fails with another error and stores nothing, or
appends the record. -/
def storeInsert (fault : List Event → Event → Option ExtError) (store : List Event)
    (evt : Event) : Option StoreError × List Event :=
  if evt.UniqueID ∈ store.map Event.UniqueID then (some .duplicateKey, store)
  else
    match fault store evt with
    | some e => (some (.other e), store)
    | none => (none, store ++ [evt])

/-- Modelled from the spec: `evt.RawInsert(start, other, end)` fills the three
payload slots and inserts the record; a nil `other` leaves its slot an empty
document. Returns the error, the store and the record submitted. -/
def Event.RawInsert (fault : List Event → Event → Option ExtError) (store : List Event)
    (evt : Event) (start : DeployOptions) (other : Option (List (String × String)))
    (endData : List (String × String)) : Option StoreError × List Event × Event :=
  let evt :=
    { evt with
      StartCustomData := start.encode
      OtherCustomData := .doc (other.getD [])
      EndCustomData := .doc endData }
  let r := storeInsert fault store evt
  (r.1, r.2, evt)

/-- The result of `deployDataToEvent`: the returned error, the event store
afterwards, the record submitted for insertion and the calls made. -/
structure InsertOutcome where
  err : Option StoreError
  store : List Event
  submitted : Event
  calls : List DbCall

/-- `event.Allowed(scheme, contexts...)`. -/
def Allowed (scheme : String) (contexts : List PermissionContext) : AllowedPermission :=
  { Scheme := scheme, Contexts := contexts }

/-- `deployDataToEvent`. -/
def deployDataToEvent (env : MigrateEnv) (store : List Event) (data : DeployData) :
    InsertOutcome :=
  let allowed :=
    match env.GetByName data.App with
    | .ok a =>
      Allowed PermAppReadEvents
        (a.Teams.map (fun t => ({ CtxType := CtxTeam, Value := t } : PermissionContext))
          ++ [{ CtxType := CtxApp, Value := a.Name }, { CtxType := CtxPool, Value := a.Pool }])
    | .error _ => Allowed PermAppReadEvents []
  let evt : Event :=
    { UniqueID := data.ID
      Target := { Type_ := TargetTypeApp, Value := data.App }
      Owner := { Type_ := OwnerTypeUser, Name := data.User }
      Kind := { Type_ := KindTypePermission, Name := PermAppDeploy }
      StartTime := data.Timestamp
      EndTime := data.Timestamp.Add data.Duration
      Error := data.Error
      Log := data.Log
      RemoveDate := data.RemoveDate
      Allowed := allowed
      StartCustomData := .doc [], OtherCustomData := .doc [], EndCustomData := .doc [] }
  let startOpts : DeployOptions :=
    { DeployOptions.zero with Commit := data.Commit, Origin := data.Origin }
  let otherData : Option (List (String × String)) :=
    if data.Diff ≠ "" then some [("diff", data.Diff)] else none
  let endData := [("image", data.Image)]
  let r := evt.RawInsert env.insertFault store startOpts otherData endData
  let calls := [DbCall.GetByName data.App, DbCall.RawInsert data.ID r.1]
  if IsDup r.1 then { err := none, store := r.2.1, submitted := r.2.2, calls := calls }
  else { err := r.1, store := r.2.1, submitted := r.2.2, calls := calls }

/-- The result of the migration job: the returned error, the event store
afterwards and the database calls made. -/
structure MigrateOutcome where
  err : Option StoreError
  store : List Event
  calls : List DbCall

/-- The loop `for iter.Next(&data) { ... }` of `MigrateDeploysToEvents` over
the documents the cursor still has to yield. `err` is `some` exactly when the
loop was left by `return err`. -/
def migrateLoop (env : MigrateEnv) : List DeployData → List Event → MigrateOutcome
  | [], store => { err := none, store := store, calls := [DbCall.Next] }
  | data :: rest, store =>
    let r := deployDataToEvent env store data
    match r.err with
    | some e => { err := some e, store := r.store, calls := DbCall.Next :: r.calls }
    | none =>
      let tail := migrateLoop env rest r.store
      { tail with calls := DbCall.Next :: r.calls ++ tail.calls }

/-- `MigrateDeploysToEvents`; `conn.Close()` is deferred, so it is the last
call on every path after a successful `db.Conn()`. -/
def MigrateDeploysToEvents (env : MigrateEnv) (store : List Event) : MigrateOutcome :=
  match env.Conn with
  | some e => { err := some e, store := store, calls := [DbCall.Conn] }
  | none =>
    let looped := migrateLoop env env.deploys store
    match looped.err with
    | some e =>
      { err := some e, store := looped.store,
        calls := [DbCall.Conn, DbCall.Find] ++ looped.calls ++ [DbCall.ConnClose] }
    | none =>
      { err := env.iterClose, store := looped.store,
        calls := [DbCall.Conn, DbCall.Find] ++ looped.calls
          ++ [DbCall.IterClose, DbCall.ConnClose] }

/-! ## The dispatch table of the specification -/

/-- The capability set of spec section 4.2. -/
inductive Capability where
  | BuildPipeline
  | ImageDeploy
  | UploadDeploy
  | Rollback
  | Rebuild
  | ArchiveDeploy
  deriving DecidableEq, Repr

/-- Whether a provisioner implements a capability. -/
def Provisioner.implements (p : Provisioner) : Capability → Bool
  | .BuildPipeline => p.BuilderDeploy.isSome
  | .ImageDeploy => p.ImageDeployer.isSome
  | .UploadDeploy => p.UploadDeployer.isSome
  | .Rollback => p.RollbackableDeployer.isSome
  | .Rebuild => p.RebuildableDeployer.isSome
  | .ArchiveDeploy => p.ArchiveDeployer.isSome

/-- The table of spec section 4.2, written from the spec: the capabilities to
try for a kind, in order; the last row is the default. -/
def capabilityOrder (kind : DeployKind) : List Capability :=
  if kind = DeployRollback then [.Rollback]
  else if kind = DeployImage then [.BuildPipeline, .ImageDeploy]
  else if kind = DeployUpload ∨ kind = DeployUploadBuild then [.BuildPipeline, .UploadDeploy]
  else if kind = DeployRebuild then [.BuildPipeline, .Rebuild]
  else [.BuildPipeline, .ArchiveDeploy]

/-- The selection rule of spec section 4.2: the first capability of the
kind's order that the provisioner implements. -/
def firstImplemented (p : Provisioner) (kind : DeployKind) : Option Capability :=
  (capabilityOrder kind).find? p.implements

/-- The capability a recorded call belongs to; calls made on the builder and
on the pipeline's `Deploy` belong to the build pipeline. -/
def Call.capability : Call → Option Capability
  | .Build .. => some .BuildPipeline
  | .Deploy .. => some .BuildPipeline
  | .ImageDeploy .. => some .ImageDeploy
  | .UploadDeploy .. => some .UploadDeploy
  | .Rollback .. => some .Rollback
  | .Rebuild .. => some .Rebuild
  | .ArchiveDeploy .. => some .ArchiveDeploy
  | _ => none

/-- The request as the dispatcher sees it: a preset `Kind` is kept, an empty
one is filled in by `GetKind`. -/
def effectiveOpts (o : DeployOptions) : DeployOptions :=
  if o.Kind = "" then o.GetKind.2 else o

/-- The kind the dispatcher switches on. -/
def effectiveKind (o : DeployOptions) : DeployKind := (effectiveOpts o).Kind

/-- Invoking one capability of a provisioner for a request, written from spec
sections 4.2, 4.3 and 6: a direct capability is one call whose result is
returned, the build pipeline is `builderDeploy` (a rebuild only for kind
`rebuild`). A capability the provisioner lacks invokes nothing. -/
def invokeCapability (env : Env) (prov : Provisioner) (o : DeployOptions) (evt : EventRef) :
    Capability → Outcome
  | .BuildPipeline =>
    match prov.BuilderDeploy with
    | some deploy => builderDeploy env prov deploy o evt (decide (o.Kind = DeployRebuild))
    | none => { imageID := "", err := none, calls := [] }
  | .ImageDeploy =>
    match prov.ImageDeployer with
    | some f => Outcome.ofCall (Call.ImageDeploy o.App o.Image evt) (f o.App o.Image evt)
    | none => { imageID := "", err := none, calls := [] }
  | .UploadDeploy =>
    match prov.UploadDeployer with
    | some f =>
      Outcome.ofCall (Call.UploadDeploy o.App o.File o.FileSize o.Build evt)
        (f o.App o.File o.FileSize o.Build evt)
    | none => { imageID := "", err := none, calls := [] }
  | .Rollback =>
    match prov.RollbackableDeployer with
    | some f => Outcome.ofCall (Call.Rollback o.App o.Image evt) (f o.App o.Image evt)
    | none => { imageID := "", err := none, calls := [] }
  | .Rebuild =>
    match prov.RebuildableDeployer with
    | some f => Outcome.ofCall (Call.Rebuild o.App evt) (f o.App evt)
    | none => { imageID := "", err := none, calls := [] }
  | .ArchiveDeploy =>
    match prov.ArchiveDeployer with
    | some f => Outcome.ofCall (Call.ArchiveDeploy o.App o.ArchiveURL evt) (f o.App o.ArchiveURL evt)
    | none => { imageID := "", err := none, calls := [] }

/-- The error of the platform precondition of `deployToProvisioner`. -/
def errNoPlatform : DeployError :=
  .errorf "can't deploy app without platform, if it's not an image or rollback"

/-! ## Example scenarios -/

/-- An application with a platform. -/
def exampleApp : App :=
  { Name := "myapp", Platform := "python", UpdatePlatform := false, Deploys := 0,
    Teams := ["admin"], Pool := "pool1" }

/-- The same application without a platform. -/
def appNoPlatform : App := { exampleApp with Platform := "" }

/-- A provisioner implementing no capability at all. -/
def provNone : Provisioner :=
  { Name := "fake", BuilderDeploy := none, ImageDeployer := none, UploadDeployer := none,
    RollbackableDeployer := none, RebuildableDeployer := none, ArchiveDeployer := none }

/-- A provisioner implementing only `ArchiveDeployer`; it answers with the archive URL. -/
def provArchiveOnly : Provisioner :=
  { provNone with ArchiveDeployer := some (fun _ url _ => ("archive:" ++ url, none)) }

/-- A provisioner implementing both the build pipeline and `ArchiveDeployer`. -/
def provPipelineAndArchive : Provisioner :=
  { provArchiveOnly with BuilderDeploy := some (fun _ img _ => (img, none)) }

/-- A provisioner implementing only `RollbackableDeployer`; it answers with the image. -/
def provRollbackOnly : Provisioner :=
  { provNone with RollbackableDeployer := some (fun _ img _ => (img, none)) }

/-- A builder that always builds the image `built:v1`. -/
def exampleBuilder : Builder := { Build := fun _ _ _ _ => ("built:v1", none) }

/-- Modelled from the spec: `image.GetAppImageBySuffix` is not among the
sources. Spec section 4.5: it "looks up the application's images and returns
the one whose identifier ends with the given suffix; fails with `NotFound` if
none match or the lookup service errs". -/
def resolveRollbackTarget (images : Except ExtError (List String)) (suffix : String) :
    Except ExtError String :=
  match images with
  | .error _ => .error "NotFound"
  | .ok imgs =>
    match imgs.find? (fun img => suffix.data.isSuffixOf img.data) with
    | some img => .ok img
    | none => .error "NotFound"

/-- An environment resolving every application to `prov`, with the images
`myapp:v1` and `myapp:v2` in the registry. -/
def envWith (prov : Provisioner) : Env :=
  { getProvisioner := fun _ => .ok prov
    getBuilder := fun _ => .ok exampleBuilder
    GetAppImageBySuffix := fun _ suffix => resolveRollbackTarget (.ok ["myapp:v1", "myapp:v2"]) suffix
    incrementDeployUpdate := fun _ => none }

/-- An environment in which no provisioner can be resolved. -/
def envNoProvisioner : Env :=
  { envWith provNone with getProvisioner := fun _ => .error "unknown provisioner" }

/-- A git request: only the commit is set. -/
def gitRequest (app : App) : DeployOptions :=
  { DeployOptions.zero with App := app, Commit := "abc123", Event := some 7 }

/-- A rollback request as the rollback handler builds it: flag set, kind left
to the classifier. -/
def rollbackRequest (image : String) : DeployOptions :=
  { DeployOptions.zero with App := exampleApp, Image := image, Rollback := true, Event := some 7 }

/-- A request whose kind is preset to rollback while the rollback flag is not set. -/
def presetRollbackRequest (image : String) : DeployOptions :=
  { DeployOptions.zero with
    App := exampleApp, Image := image, Kind := DeployRollback, Event := some 7 }

/-- The calls of a trace made on provisioner capabilities and on the builder. -/
def capabilityCalls (calls : List Call) : List Call :=
  calls.filter (fun c => c.capability.isSome)

/-- Whether a call consults the rollback resolver. -/
def Call.isResolve : Call → Bool
  | .GetAppImageBySuffix .. => true
  | _ => false

/-- An audit record of a finished deploy whose end data holds the given image. -/
def eventWithImage (image : String) : Event :=
  { UniqueID := "5a1b", Target := { Type_ := TargetTypeApp, Value := "myapp" },
    Owner := { Type_ := OwnerTypeUser, Name := "alice" },
    Kind := { Type_ := KindTypePermission, Name := PermAppDeploy },
    StartTime := ⟨1000⟩, EndTime := ⟨5000⟩, Error := "", Log := "building", RemoveDate := ⟨0⟩,
    Allowed := Allowed PermAppReadEvents [],
    StartCustomData := .doc [("commit", "abc123"), ("origin", "")],
    OtherCustomData := .doc [("diff", "+line")],
    EndCustomData := .doc [("image", image)] }

/-- A legacy deployment record. -/
def legacyRecord (id : ObjectId) (duration : Duration) : DeployData :=
  { ID := id, App := "myapp", Timestamp := ⟨1000⟩, Duration := duration, Commit := "abc123",
    Error := "", Image := "registry/myapp:v12", Log := "building", User := "alice",
    Origin := "", CanRollback := true, RemoveDate := ⟨0⟩, Diff := "+line" }

/-- A migration environment over the given legacy documents in which inserts
fail as `fault` says. -/
def migrateEnv (deploys : List DeployData) (fault : List Event → Event → Option ExtError) :
    MigrateEnv :=
  { Conn := none, deploys := deploys, iterClose := none,
    GetByName := fun name => if name = "myapp" then .ok exampleApp else .error "not found",
    insertFault := fault }

/-- Whether a database call is an insert into the event store. -/
def DbCall.isRawInsert : DbCall → Bool
  | .RawInsert .. => true
  | _ => false

/-- The number of inserts attempted in a trace: one per legacy record processed. -/
def insertAttempts (calls : List DbCall) : Nat :=
  (calls.filter DbCall.isRawInsert).length

/-- The unique ids held by an event store. -/
def storedIDs (store : List Event) : List ObjectId := store.map Event.UniqueID

/-- The record `deployDataToEvent` builds from a legacy record, payload slots
filled, as it is submitted to the store. -/
def legacyEvent (env : MigrateEnv) (data : DeployData) : Event :=
  (deployDataToEvent env [] data).submitted

/-! ## Classifier: properties -/

/-- C1: `GetKind` returns a kind for every request and follows the fixed
priority rollback flag, image reference, file (upload-build when the build
flag is set, upload otherwise), commit, and archive-url as the fallback
whatever the archive URL is; the kind is one of the six classified kinds and
is stored back on the request. -/
theorem GetKind_priority (o : DeployOptions) :
    (o.Rollback = true → o.GetKind.1 = DeployRollback) ∧
    (o.Rollback = false → o.Image ≠ "" → o.GetKind.1 = DeployImage) ∧
    (o.Rollback = false → o.Image = "" → o.File ≠ none → o.Build = true →
      o.GetKind.1 = DeployUploadBuild) ∧
    (o.Rollback = false → o.Image = "" → o.File ≠ none → o.Build = false →
      o.GetKind.1 = DeployUpload) ∧
    (o.Rollback = false → o.Image = "" → o.File = none → o.Commit ≠ "" →
      o.GetKind.1 = DeployGit) ∧
    (o.Rollback = false → o.Image = "" → o.File = none → o.Commit = "" →
      o.GetKind.1 = DeployArchiveURL) ∧
    (∀ url, ({ o with ArchiveURL := url } : DeployOptions).GetKind.1 = o.GetKind.1) ∧
    o.GetKind.1 ∈ [DeployRollback, DeployImage, DeployUploadBuild, DeployUpload, DeployGit,
      DeployArchiveURL] ∧
    o.GetKind.2 = { o with Kind := o.GetKind.1 } := by
  refine ⟨?_, ?_, ?_, ?_, ?_, ?_, ?_, ?_, ?_⟩
  · intro h; simp [DeployOptions.GetKind, h]
  · intro h1 h2; simp [DeployOptions.GetKind, h1, h2]
  · intro h1 h2 h3 h4; simp [DeployOptions.GetKind, h1, h2, h3, h4]
  · intro h1 h2 h3 h4; simp [DeployOptions.GetKind, h1, h2, h3, h4]
  · intro h1 h2 h3 h4; simp [DeployOptions.GetKind, h1, h2, h3, h4]
  · intro h1 h2 h3 h4; simp [DeployOptions.GetKind, h1, h2, h3, h4]
  · intro url; simp [DeployOptions.GetKind]
  · simp only [DeployOptions.GetKind]
    split_ifs <;> simp
  · rfl

/-- C1, at a request with the rollback flag set and an image given: the kind
is rollback, not image. -/
theorem GetKind_priority_witness :
    ({ DeployOptions.zero with Rollback := true, Image := "myapp:v2" } : DeployOptions).GetKind.1
      = DeployRollback :=
  (GetKind_priority { DeployOptions.zero with Rollback := true, Image := "myapp:v2" }).1 rfl

/-! ## Dispatcher: properties -/

/-- A request with a preset kind is dispatched as it is. -/
theorem effectiveOpts_of_ne (o : DeployOptions) (h : o.Kind ≠ "") : effectiveOpts o = o := by
  simp [effectiveOpts, h]

/-- The kind the dispatcher switches on is never empty when classified. -/
theorem GetKind_ne_empty (o : DeployOptions) : o.GetKind.1 ≠ "" := by
  simp only [DeployOptions.GetKind]
  split_ifs <;> simp [DeployRollback, DeployImage, DeployUploadBuild, DeployUpload,
    DeployGit, DeployArchiveURL]

/-- Filling in the kind does not touch the application. -/
theorem effectiveOpts_App (o : DeployOptions) : (effectiveOpts o).App = o.App := by
  unfold effectiveOpts; split_ifs <;> simp [DeployOptions.GetKind]

/-- Filling in the kind twice is filling it in once. -/
theorem effectiveOpts_idem (o : DeployOptions) : effectiveOpts (effectiveOpts o) = effectiveOpts o := by
  by_cases h : o.Kind = ""
  · apply effectiveOpts_of_ne
    have : (effectiveOpts o).Kind = o.GetKind.1 := by simp [effectiveOpts, h, DeployOptions.GetKind]
    rw [this]
    exact GetKind_ne_empty o
  · rw [effectiveOpts_of_ne o h, effectiveOpts_of_ne o h]

/-- The dispatcher only depends on the request through `effectiveOpts`. -/
theorem deployToProvisioner_effective (env : Env) (opts : DeployOptions) (evt : EventRef) :
    deployToProvisioner env opts evt = deployToProvisioner env (effectiveOpts opts) evt := by
  have e1 : (if opts.Kind = "" then opts.GetKind.2 else opts) = effectiveOpts opts := rfl
  have e2 : (if (effectiveOpts opts).Kind = "" then (effectiveOpts opts).GetKind.2
      else effectiveOpts opts) = effectiveOpts opts := effectiveOpts_idem opts
  unfold deployToProvisioner
  simp only [e1, e2, effectiveOpts_App]

/-- The calls of the build pipeline all belong to the build pipeline. -/
theorem builderDeploy_calls (env : Env) (prov : Provisioner)
    (deploy : App → String → EventRef → CallResult) (o : DeployOptions) (evt : EventRef)
    (isRebuild : Bool) :
    ∀ call ∈ (builderDeploy env prov deploy o evt isRebuild).calls,
      call.capability = some Capability.BuildPipeline := by
  intro call hcall
  unfold builderDeploy at hcall
  cases hb : env.getBuilder o.App with
  | error e => simp [hb] at hcall
  | ok build =>
    simp only [hb] at hcall
    split at hcall
    · simp at hcall; subst hcall; rfl
    · simp at hcall; rcases hcall with h | h <;> subst h <;> rfl

/-- An error of the build pipeline is an error of a collaborator. -/
theorem builderDeploy_err (env : Env) (prov : Provisioner)
    (deploy : App → String → EventRef → CallResult) (o : DeployOptions) (evt : EventRef)
    (isRebuild : Bool) :
    (builderDeploy env prov deploy o evt isRebuild).err ≠ some errNoPlatform := by
  unfold builderDeploy
  cases hb : env.getBuilder o.App with
  | error e => simp [errNoPlatform]
  | ok build =>
    simp only []
    split
    · simp [errNoPlatform]
    · cases h : (deploy o.App (build.Build prov o.App evt _).1 evt).2 <;> simp [errNoPlatform, h]

/-- Every call made when one capability is invoked belongs to it. -/
theorem invokeCapability_calls (env : Env) (prov : Provisioner) (o : DeployOptions)
    (evt : EventRef) (c : Capability) :
    ∀ call ∈ (invokeCapability env prov o evt c).calls, call.capability = some c := by
  intro call hcall
  cases c <;> simp only [invokeCapability] at hcall <;> split at hcall <;>
    first
    | exact builderDeploy_calls _ _ _ _ _ _ call hcall
    | (simp [Outcome.ofCall] at hcall <;> (subst hcall; rfl))

/-- A direct capability the provisioner implements is invoked as one call. -/
theorem invokeCapability_direct (env : Env) (prov : Provisioner) (o : DeployOptions)
    (evt : EventRef) (c : Capability) (himpl : prov.implements c = true)
    (hc : c ≠ Capability.BuildPipeline) :
    ∃ call, (invokeCapability env prov o evt c).calls = [call] := by
  cases c <;> simp only [Provisioner.implements, Option.isSome_iff_exists] at himpl <;>
    first
    | exact absurd rfl hc
    | (obtain ⟨f, hf⟩ := himpl; simp [invokeCapability, hf, Outcome.ofCall])

/-- C2: with the provisioner resolved and a non-empty platform, for each of
the seven kinds the dispatcher invokes exactly the first capability of the
kind's order that the provisioner implements: its outcome is that of invoking
this capability, every call made belongs to it, and a direct capability is
one call. -/
theorem deployToProvisioner_first_capability (env : Env) (opts : DeployOptions)
    (evt : EventRef) (prov : Provisioner) (c : Capability)
    (hprov : env.getProvisioner opts.App = .ok prov)
    (hplat : opts.App.GetPlatform ≠ "")
    (hkind : effectiveKind opts ∈ allKinds)
    (hfirst : firstImplemented prov (effectiveKind opts) = some c) :
    deployToProvisioner env opts evt = invokeCapability env prov (effectiveOpts opts) evt c ∧
    (∀ call ∈ (deployToProvisioner env opts evt).calls, call.capability = some c) ∧
    (c ≠ Capability.BuildPipeline →
      ∃ call, (deployToProvisioner env opts evt).calls = [call]) := by
  rw [deployToProvisioner_effective]
  have hprov2 : env.getProvisioner (effectiveOpts opts).App = .ok prov := by
    rw [effectiveOpts_App]; exact hprov
  have hplat2 : (effectiveOpts opts).App.GetPlatform ≠ "" := by
    rw [effectiveOpts_App]; exact hplat
  have hidem := effectiveOpts_idem opts
  unfold effectiveKind at hkind hfirst
  generalize effectiveOpts opts = o at *
  have hdisp : deployToProvisioner env o evt = invokeCapability env prov o evt c := by
    unfold deployToProvisioner
    simp only [hprov2]
    have e : (if o.Kind = "" then o.GetKind.2 else o) = o := hidem
    simp only [e, hplat2, false_and, if_false]
    simp only [allKinds, List.mem_cons, List.mem_singleton, List.not_mem_nil, or_false] at hkind
    unfold firstImplemented capabilityOrder at hfirst
    rcases hkind with hk | hk | hk | hk | hk | hk | hk <;>
      simp only [hk, DeployArchiveURL, DeployGit, DeployImage, DeployRollback, DeployUpload,
        DeployUploadBuild, DeployRebuild] at hfirst ⊢ <;>
      simp +decide [Provisioner.implements, List.find?] at hfirst ⊢ <;>
      cases hB : prov.BuilderDeploy <;> cases hI : prov.ImageDeployer <;>
      cases hU : prov.UploadDeployer <;> cases hR : prov.RollbackableDeployer <;>
      cases hRb : prov.RebuildableDeployer <;> cases hA : prov.ArchiveDeployer <;>
      simp only [hB, hI, hU, hR, hRb, hA, Option.isSome_some, Option.isSome_none,
        Option.some.injEq, reduceCtorEq] at hfirst <;>
      subst hfirst <;>
      simp +decide [invokeCapability, hB, hI, hU, hR, hRb, hA, hk, DeployArchiveURL, DeployGit,
        DeployImage, DeployRollback, DeployUpload, DeployUploadBuild, DeployRebuild]
  rw [hdisp]
  refine ⟨rfl, invokeCapability_calls env prov o evt c, fun hc => ?_⟩
  exact invokeCapability_direct env prov o evt c (List.find?_some hfirst) hc

/-- C2, at a git request: a provisioner implementing only `ArchiveDeployer`
has `ArchiveDeploy` invoked, and one implementing the build pipeline as well
goes through the pipeline, `ArchiveDeploy` never being invoked. -/
theorem deployToProvisioner_first_capability_witness :
    (deployToProvisioner (envWith provArchiveOnly) (gitRequest exampleApp) 7).calls
      = [Call.ArchiveDeploy exampleApp "" 7] ∧
    (∀ call ∈ (deployToProvisioner (envWith provPipelineAndArchive) (gitRequest exampleApp) 7).calls,
      call.capability = some Capability.BuildPipeline) ∧
    (deployToProvisioner (envWith provPipelineAndArchive) (gitRequest exampleApp) 7).calls
      = [Call.Build "fake" exampleApp 7
          { BuildFromFile := false, ArchiveURL := "", ArchiveFile := none, ArchiveSize := 0,
            Rebuild := false, ImageID := "" },
         Call.Deploy exampleApp "built:v1" 7] := by
  have h1 := deployToProvisioner_first_capability (envWith provArchiveOnly)
    (gitRequest exampleApp) 7 provArchiveOnly Capability.ArchiveDeploy rfl (by decide)
    (by decide) (by decide)
  have h2 := deployToProvisioner_first_capability (envWith provPipelineAndArchive)
    (gitRequest exampleApp) 7 provPipelineAndArchive Capability.BuildPipeline rfl (by decide)
    (by decide) (by decide)
  refine ⟨?_, h2.2.1, ?_⟩
  · rw [h1.1]; rfl
  · rw [h2.1]; rfl

/-- C3 as amended: with the provisioner resolved and the platform
precondition passed (platform non-empty, or kind image or rollback), a
provisioner implementing none of the capabilities of the kind's order has
nothing invoked and the dispatcher fails with `ProvisionerNotSupported`
carrying the provisioner and the action `<kind> deploy`, with an empty image
id. -/
theorem deployToProvisioner_not_supported (env : Env) (opts : DeployOptions)
    (evt : EventRef) (prov : Provisioner)
    (hprov : env.getProvisioner opts.App = .ok prov)
    (hplat : opts.App.GetPlatform ≠ "" ∨ effectiveKind opts = DeployImage ∨
      effectiveKind opts = DeployRollback)
    (hkind : effectiveKind opts ∈ allKinds)
    (hnone : firstImplemented prov (effectiveKind opts) = none) :
    (deployToProvisioner env opts evt).imageID = "" ∧
    (deployToProvisioner env opts evt).err
      = some (.ProvisionerNotSupported prov (effectiveKind opts ++ " deploy")) ∧
    (deployToProvisioner env opts evt).calls = [] := by
  rw [deployToProvisioner_effective]
  have hprov2 : env.getProvisioner (effectiveOpts opts).App = .ok prov := by
    rw [effectiveOpts_App]; exact hprov
  have hplat2 : (effectiveOpts opts).App.GetPlatform ≠ "" ∨
      (effectiveOpts opts).Kind = DeployImage ∨ (effectiveOpts opts).Kind = DeployRollback := by
    rw [effectiveOpts_App]; exact hplat
  have hidem := effectiveOpts_idem opts
  unfold effectiveKind at hkind hnone ⊢
  generalize effectiveOpts opts = o at *
  have e : (if o.Kind = "" then o.GetKind.2 else o) = o := hidem
  have hguard : ¬ (o.App.GetPlatform = "" ∧ (o.Kind ≠ DeployImage ∧ o.Kind ≠ DeployRollback)) := by
    rintro ⟨h1, h2, h3⟩
    rcases hplat2 with h | h | h
    · exact h h1
    · exact h2 h
    · exact h3 h
  unfold deployToProvisioner
  simp only [hprov2, e, hguard, if_false]
  simp only [allKinds, List.mem_cons, List.mem_singleton, List.not_mem_nil, or_false] at hkind
  unfold firstImplemented capabilityOrder at hnone
  rcases hkind with hk | hk | hk | hk | hk | hk | hk <;>
    simp only [hk, DeployArchiveURL, DeployGit, DeployImage, DeployRollback, DeployUpload,
      DeployUploadBuild, DeployRebuild] at hnone ⊢ <;>
    simp +decide [Provisioner.implements, List.find?] at hnone ⊢ <;>
    cases hB : prov.BuilderDeploy <;> cases hI : prov.ImageDeployer <;>
    cases hU : prov.UploadDeployer <;> cases hR : prov.RollbackableDeployer <;>
    cases hRb : prov.RebuildableDeployer <;> cases hA : prov.ArchiveDeployer <;>
    simp only [hB, hI, hU, hR, hRb, hA, Option.isSome_some, Option.isSome_none,
      reduceCtorEq] at hnone <;>
    simp

/-- C3 as amended, at an image request on an application without platform
whose provisioner implements no capability: the failure names `image deploy`. -/
theorem deployToProvisioner_not_supported_witness :
    (deployToProvisioner (envWith provNone)
        { DeployOptions.zero with App := appNoPlatform, Image := "myapp:v2" } 7).err
      = some (.ProvisionerNotSupported provNone "image deploy") :=
  (deployToProvisioner_not_supported (envWith provNone)
    { DeployOptions.zero with App := appNoPlatform, Image := "myapp:v2" } 7 provNone rfl
    (by decide) (by decide) (by decide)).2.1

/-- C3 as stated fails: a git request on an application without platform,
whose provisioner implements none of the capabilities of the kind, fails with
the platform error, not with `ProvisionerNotSupported`. -/
theorem deployToProvisioner_not_supported_counterexample :
    (envWith provNone).getProvisioner appNoPlatform = .ok provNone ∧
    effectiveKind (gitRequest appNoPlatform) = DeployGit ∧
    firstImplemented provNone DeployGit = none ∧
    (deployToProvisioner (envWith provNone) (gitRequest appNoPlatform) 7).err
      = some errNoPlatform ∧
    (deployToProvisioner (envWith provNone) (gitRequest appNoPlatform) 7).err
      ≠ some (.ProvisionerNotSupported provNone "git deploy") := by
  refine ⟨rfl, by decide, by decide, rfl, ?_⟩
  have h : (deployToProvisioner (envWith provNone) (gitRequest appNoPlatform) 7).err
      = some errNoPlatform := rfl
  rw [h]
  simp [errNoPlatform]

/-- An error of a direct capability call is an error of a collaborator. -/
theorem ofCall_err (c : Call) (r : CallResult) :
    (Outcome.ofCall c r).err ≠ some errNoPlatform := by
  rcases h : r.2 with _ | x <;> simp [Outcome.ofCall, errNoPlatform, h]

/-- For kinds image and rollback the dispatcher never fails with the platform error. -/
theorem deployToProvisioner_image_rollback_err (env : Env) (o : DeployOptions) (evt : EventRef)
    (hk : effectiveKind o = DeployImage ∨ effectiveKind o = DeployRollback) :
    (deployToProvisioner env o evt).err ≠ some errNoPlatform := by
  rw [deployToProvisioner_effective]
  have hidem := effectiveOpts_idem o
  unfold effectiveKind at hk
  generalize effectiveOpts o = o2 at *
  have e : (if o2.Kind = "" then o2.GetKind.2 else o2) = o2 := hidem
  unfold deployToProvisioner
  cases hp : env.getProvisioner o2.App with
  | error x => simp [errNoPlatform]
  | ok prov =>
    simp only [e]
    have hguard : ¬ (o2.App.GetPlatform = "" ∧ (o2.Kind ≠ DeployImage ∧ o2.Kind ≠ DeployRollback)) := by
      rintro ⟨_, h2, h3⟩
      rcases hk with h | h
      · exact h2 h
      · exact h3 h
    simp only [hguard, if_false]
    rcases hk with hk | hk <;>
      simp only [hk, DeployImage, DeployRollback] <;>
      simp +decide only [if_true, if_false] <;>
      (repeat' split) <;>
      first
      | exact builderDeploy_err _ _ _ _ _ _
      | exact ofCall_err _ _
      | simp [errNoPlatform]

/-- C4 as amended: on an application whose platform is empty and whose
provisioner is resolved, the dispatcher fails with the platform error, an
empty image id and no call made if and only if the kind is neither image nor
rollback; for kinds image and rollback it never fails with the platform
error. -/
theorem deployToProvisioner_platform_guard (env : Env) (opts : DeployOptions)
    (evt : EventRef) (prov : Provisioner)
    (hprov : env.getProvisioner opts.App = .ok prov)
    (hplat : opts.App.GetPlatform = "") :
    (((deployToProvisioner env opts evt).imageID = "" ∧
        (deployToProvisioner env opts evt).err = some errNoPlatform ∧
        (deployToProvisioner env opts evt).calls = []) ↔
      (effectiveKind opts ≠ DeployImage ∧ effectiveKind opts ≠ DeployRollback)) ∧
    ((effectiveKind opts = DeployImage ∨ effectiveKind opts = DeployRollback) →
      (deployToProvisioner env opts evt).err ≠ some errNoPlatform) := by
  refine ⟨⟨fun h => ?_, fun h => ?_⟩, deployToProvisioner_image_rollback_err env opts evt⟩
  · by_contra hne
    have hk : effectiveKind opts = DeployImage ∨ effectiveKind opts = DeployRollback := by
      by_cases h1 : effectiveKind opts = DeployImage
      · exact Or.inl h1
      · by_cases h2 : effectiveKind opts = DeployRollback
        · exact Or.inr h2
        · exact absurd ⟨h1, h2⟩ hne
    exact deployToProvisioner_image_rollback_err env opts evt hk h.2.1
  · have e1 : (if opts.Kind = "" then opts.GetKind.2 else opts) = effectiveOpts opts := rfl
    have hplat2 : (effectiveOpts opts).App.GetPlatform = "" := by
      rw [effectiveOpts_App]; exact hplat
    have hk : (effectiveOpts opts).Kind ≠ DeployImage ∧ (effectiveOpts opts).Kind ≠ DeployRollback := h
    unfold deployToProvisioner
    simp only [hprov, e1, hplat2, hk.1, hk.2, ne_eq, not_false_eq_true, and_self, if_true]
    exact ⟨trivial, rfl, trivial⟩

/-- C4 as amended, at a git request on an application without platform: the
platform error, before any call. -/
theorem deployToProvisioner_platform_guard_witness :
    (deployToProvisioner (envWith provArchiveOnly) (gitRequest appNoPlatform) 7).imageID = "" ∧
    (deployToProvisioner (envWith provArchiveOnly) (gitRequest appNoPlatform) 7).err
      = some errNoPlatform ∧
    (deployToProvisioner (envWith provArchiveOnly) (gitRequest appNoPlatform) 7).calls = [] :=
  (deployToProvisioner_platform_guard (envWith provArchiveOnly) (gitRequest appNoPlatform) 7
    provArchiveOnly rfl rfl).1.2 (by decide)

/-- C4 as stated fails: a git request on an application without platform
whose provisioner cannot be resolved fails with the resolution error, not
with the platform error, although its kind is neither image nor rollback. -/
theorem deployToProvisioner_platform_guard_counterexample :
    appNoPlatform.GetPlatform = "" ∧
    (effectiveKind (gitRequest appNoPlatform) ≠ DeployImage ∧
      effectiveKind (gitRequest appNoPlatform) ≠ DeployRollback) ∧
    (deployToProvisioner envNoProvisioner (gitRequest appNoPlatform) 7).err
      = some (.external "unknown provisioner") ∧
    (deployToProvisioner envNoProvisioner (gitRequest appNoPlatform) 7).err
      ≠ some errNoPlatform := by
  refine ⟨rfl, by decide, rfl, ?_⟩
  have h : (deployToProvisioner envNoProvisioner (gitRequest appNoPlatform) 7).err
      = some (.external "unknown provisioner") := rfl
  rw [h]
  simp [errNoPlatform]

/-! ## Deploy: rollback resolution -/

/-- A rollback-kind request on a provisioner with the Rollback capability is
one `Rollback` call on the request's image. -/
theorem deployToProvisioner_rollback (env : Env) (o : DeployOptions) (evt : EventRef)
    (prov : Provisioner) (f : App → String → EventRef → CallResult)
    (hk : effectiveKind o = DeployRollback)
    (hprov : env.getProvisioner o.App = .ok prov)
    (hf : prov.RollbackableDeployer = some f) :
    deployToProvisioner env o evt
      = Outcome.ofCall (Call.Rollback o.App o.Image evt) (f o.App o.Image evt) := by
  have e1 : (if o.Kind = "" then o.GetKind.2 else o) = effectiveOpts o := rfl
  have hk2 : (effectiveOpts o).Kind = DeployRollback := hk
  have himg : (effectiveOpts o).Image = o.Image := by
    unfold effectiveOpts; split_ifs <;> simp [DeployOptions.GetKind]
  unfold deployToProvisioner
  simp only [hprov, e1, hk2, effectiveOpts_App, himg, hf]
  simp

/-- Every call the dispatcher makes is made on a capability or on the builder. -/
theorem deployToProvisioner_calls (env : Env) (o : DeployOptions) (evt : EventRef) :
    ∀ c ∈ (deployToProvisioner env o evt).calls, c.capability.isSome = true := by
  intro c hc
  unfold deployToProvisioner at hc
  cases hp : env.getProvisioner o.App with
  | error e => simp [hp] at hc
  | ok prov =>
    simp only [hp] at hc
    generalize (if o.Kind = "" then o.GetKind.2 else o) = o2 at hc
    have hb : ∀ d r, c ∈ (builderDeploy env prov d o2 evt r).calls → c.capability.isSome = true := by
      intro d r h
      rw [builderDeploy_calls env prov d o2 evt r c h]; rfl
    split_ifs at hc
    all_goals first
      | (simp at hc)
      | (split at hc <;> first
          | (simp at hc)
          | exact hb _ _ hc
          | (simp [Outcome.ofCall] at hc; subst hc; rfl)
          | (split at hc <;> first
              | (simp at hc)
              | (simp [Outcome.ofCall] at hc; subst hc; rfl)))

/-- The dispatcher consults no resolver. -/
theorem deployToProvisioner_no_resolve (env : Env) (o : DeployOptions) (evt : EventRef) :
    ∀ c ∈ (deployToProvisioner env o evt).calls, c.isResolve = false := by
  intro c hc
  have := deployToProvisioner_calls env o evt c hc
  cases c <;> simp_all [Call.capability, Call.isResolve]

/-- The kind of a request with the rollback flag set does not depend on its image. -/
theorem effectiveKind_withImage (o : DeployOptions) (image : String)
    (hflag : o.Rollback = true) :
    effectiveKind { o with Image := image } = effectiveKind o := by
  unfold effectiveKind effectiveOpts
  by_cases h : o.Kind = "" <;> simp [h, DeployOptions.GetKind, hflag]

/-- C5 as amended: for a request with an audit record, the rollback flag set
and kind rollback. If the image reference does not end with `:v<digits>`,
`Deploy` first consults the resolver; when it resolves, the Rollback
capability of the resolved provisioner (if it implements it) is the only
capability invoked, with the resolved reference; when it fails, `Deploy`
returns that error with an empty image id and invokes no capability. If the
reference ends with `:v<digits>`, the resolver is not consulted and Rollback
is invoked with the reference unchanged. -/
theorem Deploy_rollback_resolution (env : Env) (opts : DeployOptions) (evt : EventRef)
    (hevt : opts.Event = some evt)
    (hflag : opts.Rollback = true)
    (hkind : effectiveKind opts = DeployRollback) :
    (reFullImage.MatchString opts.Image = false →
      (∀ full, env.GetAppImageBySuffix opts.App.Name opts.Image = .ok full →
        (Deploy env opts).calls.head?
          = some (Call.GetAppImageBySuffix opts.App.Name opts.Image) ∧
        (∀ prov f, env.getProvisioner opts.App = .ok prov →
          prov.RollbackableDeployer = some f →
          capabilityCalls (Deploy env opts).calls = [Call.Rollback opts.App full evt])) ∧
      (∀ e, env.GetAppImageBySuffix opts.App.Name opts.Image = .error e →
        (Deploy env opts).imageID = "" ∧
        (Deploy env opts).err = some (.external e) ∧
        capabilityCalls (Deploy env opts).calls = [])) ∧
    (reFullImage.MatchString opts.Image = true →
      (∀ c ∈ (Deploy env opts).calls, c.isResolve = false) ∧
      (∀ prov f, env.getProvisioner opts.App = .ok prov →
        prov.RollbackableDeployer = some f →
        capabilityCalls (Deploy env opts).calls = [Call.Rollback opts.App opts.Image evt])) := by
  obtain ⟨app, commit, url, size, file, user, image, origin, rollback, build, event, kind,
    message⟩ := opts
  simp only at hevt hflag
  subst hevt hflag
  have hk : ∀ img, effectiveKind (DeployOptions.mk app commit url size file user img origin
      true build (some evt) kind message) = DeployRollback := fun img =>
    (effectiveKind_withImage (DeployOptions.mk app commit url size file user image origin
      true build (some evt) kind message) img rfl).trans hkind
  refine ⟨fun hm => ⟨fun full hres => ⟨?_, fun prov f hprov hf => ?_⟩, fun e hres => ?_⟩,
    fun hm => ⟨?_, fun prov f hprov hf => ?_⟩⟩
  · unfold Deploy
    simp only [hm, hres]
    simp
    split <;> simp
  · have hd := deployToProvisioner_rollback env _ evt prov f (hk full) hprov hf
    unfold Deploy
    simp only [hm, hres]
    simp only [Bool.false_eq_true, not_false_eq_true, and_self, if_true, hd]
    split
    · simp [capabilityCalls, Outcome.ofCall, Call.capability]
    · simp [capabilityCalls, Outcome.ofCall, Call.capability, List.filter_append]
  · unfold Deploy
    simp [hm, hres, capabilityCalls, Call.capability]
  · intro c hc
    have hn := deployToProvisioner_no_resolve env (DeployOptions.mk app commit url size file
      user image origin true build (some evt) kind message) evt c
    unfold Deploy at hc
    simp only [hm, not_true_eq_false, and_false, if_false] at hc
    split at hc <;>
      simp only [List.mem_cons, List.mem_append, List.mem_singleton, List.not_mem_nil,
        List.nil_append, List.cons_append, or_false] at hc
    · casesm* _ ∨ _ <;> first | exact hn ‹_› | (subst_vars; rfl)
    · split_ifs at hc <;>
        simp only [List.mem_cons, List.mem_append, List.mem_singleton, List.not_mem_nil,
          List.nil_append, List.cons_append, or_false, false_or] at hc <;>
        casesm* _ ∨ _ <;> first | exact hn ‹_› | (subst_vars; rfl)
  · have hd := deployToProvisioner_rollback env _ evt prov f (hk image) hprov hf
    unfold Deploy
    simp only [hm, not_true_eq_false, and_false, if_false, hd]
    split
    · simp [capabilityCalls, Outcome.ofCall, Call.capability]
    · simp [capabilityCalls, Outcome.ofCall, Call.capability, List.filter_append]

/-- C5 as amended, with images `myapp:v1`, `myapp:v2`: the reference `v2` is
resolved and Rollback is invoked with `myapp:v2`; `v9` fails with `NotFound`;
`myapp:v2` is passed through unchanged. -/
theorem Deploy_rollback_resolution_witness :
    capabilityCalls (Deploy (envWith provRollbackOnly) (rollbackRequest "v2")).calls
      = [Call.Rollback exampleApp "myapp:v2" 7] ∧
    (Deploy (envWith provRollbackOnly) (rollbackRequest "v9")).err
      = some (.external "NotFound") ∧
    capabilityCalls (Deploy (envWith provRollbackOnly) (rollbackRequest "myapp:v2")).calls
      = [Call.Rollback exampleApp "myapp:v2" 7] :=
  ⟨((Deploy_rollback_resolution (envWith provRollbackOnly) (rollbackRequest "v2") 7 rfl rfl
      (by decide)).1 (by decide)).1 "myapp:v2" rfl |>.2 provRollbackOnly _ rfl rfl,
   (((Deploy_rollback_resolution (envWith provRollbackOnly) (rollbackRequest "v9") 7 rfl rfl
      (by decide)).1 (by decide)).2 "NotFound" rfl).2.1,
   ((Deploy_rollback_resolution (envWith provRollbackOnly) (rollbackRequest "myapp:v2") 7 rfl
      rfl (by decide)).2 (by decide)).2 provRollbackOnly _ rfl rfl⟩

/-- C5 as stated fails: a request with an audit record whose kind is preset to
rollback, without the rollback flag, and whose reference `v2` does not end
with `:v<digits>`: the resolver is not consulted and Rollback is invoked with
`v2`, not with the full reference `myapp:v2` the resolver would give. -/
theorem Deploy_rollback_resolution_counterexample :
    (presetRollbackRequest "v2").Event = some 7 ∧
    effectiveKind (presetRollbackRequest "v2") = DeployRollback ∧
    reFullImage.MatchString (presetRollbackRequest "v2").Image = false ∧
    (envWith provRollbackOnly).GetAppImageBySuffix "myapp" "v2" = .ok "myapp:v2" ∧
    (Deploy (envWith provRollbackOnly) (presetRollbackRequest "v2")).calls
      = [Call.LogWriterAsync exampleApp, Call.SetLogWriter 7,
         Call.Rollback exampleApp "v2" 7,
         Call.RoutesRebuildOrEnqueue "myapp", Call.incrementDeploy exampleApp,
         Call.LogWriterClose exampleApp] := by
  refine ⟨rfl, by decide, by decide, rfl, by decide⟩

/-! ## Deploy history reader: properties -/

/-- The letter `v` is not a digit, so a match of `v[0-9]+$` cannot start
before the last `v`. -/
theorem digitsToEnd_append_v (pre ds : List Char) : digitsToEnd (pre ++ 'v' :: ds) = false := by
  cases pre with
  | nil => simp [digitsToEnd]
  | cons c cs =>
    simp only [digitsToEnd, List.cons_append, List.all_cons, List.all_append]
    have : Char.isDigit 'v' = false := by decide
    simp [this]

/-- A text ending with `v` and digits is matched by `v[0-9]+$` at that `v`. -/
theorem reImageVersion_find_of_suffix (pre ds : List Char) (hne : ds ≠ [])
    (hd : ∀ c ∈ ds, c.isDigit = true) :
    reImageVersion.find (pre ++ 'v' :: ds) = some ('v' :: ds) := by
  induction pre with
  | nil =>
    cases ds with
    | nil => exact absurd rfl hne
    | cons d ds =>
      have : (d :: ds).all Char.isDigit = true := List.all_eq_true.mpr hd
      simp [reImageVersion.find, reImageVersion.matchAt, digitsToEnd, this]
  | cons c cs ih =>
    have : reImageVersion.matchAt (c :: (cs ++ 'v' :: ds)) = false := by
      simp [reImageVersion.matchAt, digitsToEnd_append_v]
    simp [reImageVersion.find, this, ih]

/-- A match of `v[0-9]+$` is a suffix of the text made of `v` and digits. -/
theorem reImageVersion_find_some (s m : List Char) (h : reImageVersion.find s = some m) :
    ∃ pre ds, s = pre ++ 'v' :: ds ∧ ds ≠ [] ∧ (∀ c ∈ ds, c.isDigit = true) ∧ m = 'v' :: ds := by
  induction s with
  | nil => simp [reImageVersion.find] at h
  | cons c cs ih =>
    unfold reImageVersion.find at h
    split_ifs at h with hm
    · simp only [reImageVersion.matchAt, Bool.and_eq_true, decide_eq_true_eq] at hm
      obtain ⟨hc, hd⟩ := hm
      subst hc
      cases cs with
      | nil => simp [digitsToEnd] at hd
      | cons d ds =>
        simp only [digitsToEnd] at hd
        refine ⟨[], d :: ds, rfl, by simp, List.all_eq_true.mp hd, ?_⟩
        simpa using h.symm
    · obtain ⟨pre, ds, h1, h2, h3, h4⟩ := ih h
      exact ⟨c :: pre, ds, by rw [h1]; rfl, h2, h3, h4⟩

/-- C6 as amended: for an audit record whose end data decodes and a valid-image
set, the list view sets `CanRollback` exactly when the un-stripped image of
the end data is in the set; it displays the bare tag `v<digits>` exactly when
the raw image ends with `v` followed by one or more digits (whether or not a
colon precedes it) and the raw image otherwise; log and diff stay empty. -/
theorem eventToDeployData_list_view (evt : Event) (valid : List String)
    (endData : List (String × String)) (hend : evt.EndData = .ok endData) :
    ((eventToDeployData evt (some valid) false).CanRollback = true ↔
      mapGet endData "image" ∈ valid) ∧
    (∀ pre ds, (mapGet endData "image").data = pre ++ 'v' :: ds → ds ≠ [] →
      (∀ c ∈ ds, c.isDigit = true) →
      (eventToDeployData evt (some valid) false).Image = String.mk ('v' :: ds)) ∧
    ((¬ ∃ pre ds, (mapGet endData "image").data = pre ++ 'v' :: ds ∧ ds ≠ [] ∧
        ∀ c ∈ ds, c.isDigit = true) →
      (eventToDeployData evt (some valid) false).Image = mapGet endData "image") ∧
    (eventToDeployData evt (some valid) false).Log = "" ∧
    (eventToDeployData evt (some valid) false).Diff = "" := by
  refine ⟨?_, ?_, ?_, ?_, ?_⟩
  · unfold eventToDeployData
    simp only [hend, reImageVersion.MatchString, reImageVersion.FindAllStringSubmatch]
    cases hs : evt.StartData <;> cases hf : reImageVersion.find (mapGet endData "image").data <;>
      simp
  · intro pre ds h1 h2 h3
    have hf := reImageVersion_find_of_suffix pre ds h2 h3
    rw [← h1] at hf
    unfold eventToDeployData
    simp only [hend, reImageVersion.MatchString, reImageVersion.FindAllStringSubmatch, hf]
    cases hs : evt.StartData <;> simp
  · intro hno
    have hf : reImageVersion.find (mapGet endData "image").data = none := by
      cases hf : reImageVersion.find (mapGet endData "image").data with
      | none => rfl
      | some m =>
        obtain ⟨pre, ds, h1, h2, h3, _⟩ := reImageVersion_find_some _ m hf
        exact absurd ⟨pre, ds, h1, h2, h3⟩ hno
    unfold eventToDeployData
    simp only [hend, reImageVersion.MatchString, reImageVersion.FindAllStringSubmatch, hf]
    cases hs : evt.StartData <;> simp
  · unfold eventToDeployData
    simp only [hend, reImageVersion.MatchString, reImageVersion.FindAllStringSubmatch]
    cases hs : evt.StartData <;> cases hf : reImageVersion.find (mapGet endData "image").data <;>
      simp
  · unfold eventToDeployData
    simp only [hend, reImageVersion.MatchString, reImageVersion.FindAllStringSubmatch]
    cases hs : evt.StartData <;> cases hf : reImageVersion.find (mapGet endData "image").data <;>
      simp

/-- C6 as amended, at the raw image `registry/myapp:v12` with itself as the
only valid image: the list view displays `v12` and marks it rollback-eligible. -/
theorem eventToDeployData_list_view_witness :
    (eventToDeployData (eventWithImage "registry/myapp:v12") (some ["registry/myapp:v12"])
      false).Image = "v12" ∧
    (eventToDeployData (eventWithImage "registry/myapp:v12") (some ["registry/myapp:v12"])
      false).CanRollback = true :=
  ⟨(eventToDeployData_list_view (eventWithImage "registry/myapp:v12") ["registry/myapp:v12"]
      [("image", "registry/myapp:v12")] rfl).2.1 "registry/myapp:".data "12".data rfl
      (by decide) (by decide),
   (eventToDeployData_list_view (eventWithImage "registry/myapp:v12") ["registry/myapp:v12"]
      [("image", "registry/myapp:v12")] rfl).1.2 (by decide)⟩

/-- A text ending with `:v` and digits is matched by `:v[0-9]+$`. -/
theorem reFullImage_match_of_suffix (pre ds : List Char) (hne : ds ≠ [])
    (hd : ∀ c ∈ ds, c.isDigit = true) :
    reFullImage.MatchString.go (pre ++ ':' :: 'v' :: ds) = true := by
  induction pre with
  | nil =>
    cases ds with
    | nil => exact absurd rfl hne
    | cons d ds =>
      have : (d :: ds).all Char.isDigit = true := List.all_eq_true.mpr hd
      simp [reFullImage.MatchString.go, reFullImage.matchAt, reImageVersion.matchAt,
        digitsToEnd, this]
  | cons c cs ih => simp [reFullImage.MatchString.go, ih]

/-- C6 as stated fails: the raw image `registry/myappv12` has no trailing
`:v<digits>` suffix, yet the list view displays `v12`, not the raw image. -/
theorem eventToDeployData_list_view_counterexample :
    (eventWithImage "registry/myappv12").EndData = .ok [("image", "registry/myappv12")] ∧
    (¬ ∃ pre ds, "registry/myappv12".data = pre ++ ':' :: 'v' :: ds ∧ ds ≠ [] ∧
      ∀ c ∈ ds, c.isDigit = true) ∧
    (eventToDeployData (eventWithImage "registry/myappv12") (some ["registry/myappv12"])
      false).Image = "v12" ∧
    (eventToDeployData (eventWithImage "registry/myappv12") (some ["registry/myappv12"])
      false).Image ≠ "registry/myappv12" := by
  refine ⟨rfl, ?_, by decide, by decide⟩
  rintro ⟨pre, ds, h1, h2, h3⟩
  have hm := reFullImage_match_of_suffix pre ds h2 h3
  rw [← h1] at hm
  exact absurd hm (by decide)

/-! ## Legacy migration: the record built -/

/-- Adding a duration that does not overflow and subtracting the start again
gives the duration back. -/
theorem Time.Sub_Add (t : Time) (d : Duration) (hd : isInt64 d)
    (hno : Time.valid ⟨t.ns + d⟩) : (t.Add d).Sub t = d := by
  have hadd : t.Add d = ⟨t.ns + d⟩ := by
    simp only [Time.Add, wrapTime, Time.valid] at *
    congr 1
    norm_num at hno ⊢
    omega
  have hw : wrapInt64 (t.ns + d - t.ns) = d := by
    simp only [wrapInt64, isInt64] at *
    norm_num at hd ⊢
    omega
  unfold Time.Sub
  simp only [hadd, hw]
  simp [Time.Add, hadd] at *

/-- The times of the record `deployDataToEvent` submits. -/
theorem deployDataToEvent_times (env : MigrateEnv) (store : List Event) (data : DeployData) :
    (deployDataToEvent env store data).submitted.StartTime = data.Timestamp ∧
    (deployDataToEvent env store data).submitted.EndTime = data.Timestamp.Add data.Duration := by
  unfold deployDataToEvent
  simp only [Event.RawInsert]
  split_ifs <;> exact ⟨rfl, rfl⟩

/-- C9 as amended: for a legacy record whose duration is not negative and
whose timestamp plus duration does not overflow, the record submitted by
`deployDataToEvent` ends at or after its start. -/
theorem deployDataToEvent_end_after_start (env : MigrateEnv) (store : List Event)
    (data : DeployData) (hd : 0 ≤ data.Duration)
    (hno : Time.valid ⟨data.Timestamp.ns + data.Duration⟩) :
    (deployDataToEvent env store data).submitted.StartTime.ns
      ≤ (deployDataToEvent env store data).submitted.EndTime.ns ∧
    (deployDataToEvent env store data).submitted.EndTime.Before
      (deployDataToEvent env store data).submitted.StartTime = false := by
  obtain ⟨h1, h2⟩ := deployDataToEvent_times env store data
  rw [h1, h2]
  have hadd : (data.Timestamp.Add data.Duration).ns = data.Timestamp.ns + data.Duration := by
    simp only [Time.Add, wrapTime, Time.valid] at *
    norm_num at hno ⊢
    omega
  simp only [Time.Before, hadd, decide_eq_false_iff_not, not_lt]
  have hd2 : (0 : Int) ≤ data.Duration := hd
  exact ⟨by omega, by omega⟩

/-- C9 as amended, at a legacy record that took four seconds. -/
theorem deployDataToEvent_end_after_start_witness :
    (deployDataToEvent (migrateEnv [] (fun _ _ => none)) []
        (legacyRecord "5a1b" 4000000000)).submitted.StartTime.ns
      ≤ (deployDataToEvent (migrateEnv [] (fun _ _ => none)) []
        (legacyRecord "5a1b" 4000000000)).submitted.EndTime.ns :=
  (deployDataToEvent_end_after_start (migrateEnv [] (fun _ _ => none)) []
    (legacyRecord "5a1b" 4000000000) (by decide) (by decide)).1

/-- C9 as stated fails: a legacy record with a negative duration gives a
record that ends before it starts. -/
theorem deployDataToEvent_end_after_start_counterexample :
    (deployDataToEvent (migrateEnv [] (fun _ _ => none)) []
        (legacyRecord "5a1b" (-1))).submitted.StartTime = ⟨1000⟩ ∧
    (deployDataToEvent (migrateEnv [] (fun _ _ => none)) []
        (legacyRecord "5a1b" (-1))).submitted.EndTime = ⟨999⟩ ∧
    (deployDataToEvent (migrateEnv [] (fun _ _ => none)) []
        (legacyRecord "5a1b" (-1))).submitted.EndTime.Before
      (deployDataToEvent (migrateEnv [] (fun _ _ => none)) []
        (legacyRecord "5a1b" (-1))).submitted.StartTime = true := by
  refine ⟨by decide, by decide, by decide⟩

/-- C10: for a legacy record whose duration is an `int64` and whose timestamp
plus duration does not overflow, the full projection of the record submitted
by `deployDataToEvent` gives back id, app, timestamp, duration, commit,
error, image (un-stripped), log, user and diff; the origin is the record's
when non-empty, `git` when it is empty and the commit is not, and empty
otherwise; the rollback-eligible flag is false (and no removal date is
carried). -/
theorem eventToDeployData_deployDataToEvent (env : MigrateEnv) (store : List Event)
    (data : DeployData) (hd : isInt64 data.Duration)
    (hno : Time.valid ⟨data.Timestamp.ns + data.Duration⟩) :
    eventToDeployData (deployDataToEvent env store data).submitted none true
      = { data with
          Origin := if data.Origin ≠ "" then data.Origin
                    else if data.Commit ≠ "" then "git" else ""
          CanRollback := false
          RemoveDate := ⟨0⟩ } := by
  have hsub := Time.Sub_Add data.Timestamp data.Duration hd hno
  have hev : (deployDataToEvent env store data).submitted =
      { UniqueID := data.ID
        Target := { Type_ := TargetTypeApp, Value := data.App }
        Owner := { Type_ := OwnerTypeUser, Name := data.User }
        Kind := { Type_ := KindTypePermission, Name := PermAppDeploy }
        StartTime := data.Timestamp
        EndTime := data.Timestamp.Add data.Duration
        Error := data.Error
        Log := data.Log
        RemoveDate := data.RemoveDate
        Allowed := (deployDataToEvent env store data).submitted.Allowed
        StartCustomData := ({ DeployOptions.zero with
          Commit := data.Commit, Origin := data.Origin } : DeployOptions).encode
        OtherCustomData := .doc (if data.Diff ≠ "" then [("diff", data.Diff)] else [])
        EndCustomData := .doc [("image", data.Image)] } := by
    unfold deployDataToEvent
    simp only [Event.RawInsert]
    split_ifs <;> simp
  rw [hev]
  unfold eventToDeployData
  simp only [Event.StartData, Event.OtherData, Event.EndData, DeployOptions.encode, hsub,
    DeployOptions.GetOrigin, mapGet]
  by_cases hdiff : data.Diff = "" <;> simp [hdiff, List.lookup]

/-- C10, at a legacy record with a commit and no origin: everything comes
back, the origin as `git`, the rollback-eligible flag cleared. -/
theorem eventToDeployData_deployDataToEvent_witness :
    eventToDeployData (deployDataToEvent (migrateEnv [] (fun _ _ => none)) []
        (legacyRecord "5a1b" 4000000000)).submitted none true
      = { legacyRecord "5a1b" 4000000000 with Origin := "git", CanRollback := false } :=
  eventToDeployData_deployDataToEvent (migrateEnv [] (fun _ _ => none)) []
    (legacyRecord "5a1b" 4000000000) (by decide) (by decide)

/-! ## Legacy migration: the job -/

/-- The record submitted does not depend on the store. -/
theorem deployDataToEvent_submitted (env : MigrateEnv) (store : List Event) (data : DeployData) :
    (deployDataToEvent env store data).submitted = legacyEvent env data := by
  unfold legacyEvent deployDataToEvent
  simp only [Event.RawInsert]
  split_ifs <;> rfl

/-- The record submitted carries the id of the legacy record. -/
theorem legacyEvent_UniqueID (env : MigrateEnv) (data : DeployData) :
    (legacyEvent env data).UniqueID = data.ID := by
  unfold legacyEvent deployDataToEvent
  simp only [Event.RawInsert]
  split_ifs <;> rfl

/-- `deployDataToEvent` in terms of the insert into the store. -/
theorem deployDataToEvent_eq (env : MigrateEnv) (store : List Event) (data : DeployData) :
    deployDataToEvent env store data
      = { err := if IsDup (storeInsert env.insertFault store (legacyEvent env data)).1 then none
                 else (storeInsert env.insertFault store (legacyEvent env data)).1
          store := (storeInsert env.insertFault store (legacyEvent env data)).2
          submitted := legacyEvent env data
          calls := [DbCall.GetByName data.App,
            DbCall.RawInsert data.ID (storeInsert env.insertFault store (legacyEvent env data)).1] } := by
  have h : legacyEvent env data = (deployDataToEvent env store data).submitted :=
    (deployDataToEvent_submitted env store data).symm
  rw [h]
  unfold deployDataToEvent
  simp only [Event.RawInsert]
  split_ifs <;> rfl

/-- What `deployDataToEvent` does, by the answer of the store. -/
theorem deployDataToEvent_cases (env : MigrateEnv) (store : List Event) (data : DeployData) :
    (data.ID ∈ storedIDs store ∧
      (deployDataToEvent env store data).err = none ∧
      (deployDataToEvent env store data).store = store ∧
      (deployDataToEvent env store data).calls
        = [DbCall.GetByName data.App, DbCall.RawInsert data.ID (some .duplicateKey)]) ∨
    (data.ID ∉ storedIDs store ∧ ∃ e,
      (deployDataToEvent env store data).err = some (.other e) ∧
      (deployDataToEvent env store data).store = store ∧
      (deployDataToEvent env store data).calls
        = [DbCall.GetByName data.App, DbCall.RawInsert data.ID (some (.other e))]) ∨
    (data.ID ∉ storedIDs store ∧
      (deployDataToEvent env store data).err = none ∧
      (deployDataToEvent env store data).store = store ++ [legacyEvent env data] ∧
      (deployDataToEvent env store data).calls
        = [DbCall.GetByName data.App, DbCall.RawInsert data.ID none]) := by
  rw [deployDataToEvent_eq]
  have hid := legacyEvent_UniqueID env data
  by_cases hmem : data.ID ∈ storedIDs store
  · left
    have hmem2 : (legacyEvent env data).UniqueID ∈ List.map Event.UniqueID store := by
      rw [hid]; exact hmem
    refine ⟨hmem, ?_⟩
    simp [storeInsert, hmem2, IsDup]
  · right
    have hmem2 : (legacyEvent env data).UniqueID ∉ List.map Event.UniqueID store := by
      rw [hid]; exact hmem
    simp only [storeInsert, hmem2, if_false]
    cases hf : env.insertFault store (legacyEvent env data) with
    | some e => left; exact ⟨hmem, e, by simp [IsDup]⟩
    | none => right; exact ⟨hmem, by simp [IsDup]⟩

/-- The loop is left at once when `deployDataToEvent` returns an error. -/
theorem migrateLoop_cons_err (env : MigrateEnv) (d : DeployData) (rest : List DeployData)
    (store : List Event) (e : StoreError) (h : (deployDataToEvent env store d).err = some e) :
    migrateLoop env (d :: rest) store
      = { err := some e, store := (deployDataToEvent env store d).store,
          calls := DbCall.Next :: (deployDataToEvent env store d).calls } := by
  simp only [migrateLoop, h]

/-- The loop goes on with the next record when `deployDataToEvent` returns nil. -/
theorem migrateLoop_cons_ok (env : MigrateEnv) (d : DeployData) (rest : List DeployData)
    (store : List Event) (h : (deployDataToEvent env store d).err = none) :
    migrateLoop env (d :: rest) store
      = { err := (migrateLoop env rest (deployDataToEvent env store d).store).err,
          store := (migrateLoop env rest (deployDataToEvent env store d).store).store,
          calls := DbCall.Next :: (deployDataToEvent env store d).calls
            ++ (migrateLoop env rest (deployDataToEvent env store d).store).calls } := by
  simp only [migrateLoop, h]

/-- One insert is attempted per record handed to `deployDataToEvent`. -/
theorem deployDataToEvent_attempts (env : MigrateEnv) (store : List Event) (d : DeployData) :
    insertAttempts (deployDataToEvent env store d).calls = 1 := by
  rw [deployDataToEvent_eq]; rfl

/-- Counting the inserts of a trace put together. -/
theorem insertAttempts_next_append (a b : List DbCall) :
    insertAttempts (DbCall.Next :: a ++ b) = insertAttempts a + insertAttempts b := by
  simp [insertAttempts, List.filter_cons, List.filter_append, DbCall.isRawInsert]

/-- A failed insert and a rejected duplicate leave the store as it was, a
successful one appends: stored ids are never lost. -/
theorem deployDataToEvent_storedIDs_mono (env : MigrateEnv) (store : List Event)
    (d : DeployData) (id : ObjectId) (h : id ∈ storedIDs store) :
    id ∈ storedIDs (deployDataToEvent env store d).store := by
  rcases deployDataToEvent_cases env store d with ⟨_, _, hs, _⟩ | ⟨_, e, _, hs, _⟩ |
    ⟨_, _, hs, _⟩ <;> rw [hs]
  · exact h
  · exact h
  · simp only [storedIDs, List.map_append, List.mem_append]; exact Or.inl h

/-- The store only grows while the loop runs. -/
theorem migrateLoop_storedIDs_mono (env : MigrateEnv) (ds : List DeployData) :
    ∀ store id, id ∈ storedIDs store → id ∈ storedIDs (migrateLoop env ds store).store := by
  induction ds with
  | nil => intro store id h; simpa [migrateLoop] using h
  | cons d rest ih =>
    intro store id h
    have hstep := deployDataToEvent_storedIDs_mono env store d id h
    cases herr : (deployDataToEvent env store d).err with
    | some e => rw [migrateLoop_cons_err env d rest store e herr]; exact hstep
    | none => rw [migrateLoop_cons_ok env d rest store herr]; exact ih _ _ hstep

/-- After a loop that was not left early, every legacy record is in the store. -/
theorem migrateLoop_stored (env : MigrateEnv) (ds : List DeployData) :
    ∀ store, (migrateLoop env ds store).err = none →
      ∀ d ∈ ds, d.ID ∈ storedIDs (migrateLoop env ds store).store := by
  induction ds with
  | nil => intro store _ d hd; simp at hd
  | cons d rest ih =>
    intro store herr x hx
    cases hstep : (deployDataToEvent env store d).err with
    | some e =>
      rw [migrateLoop_cons_err env d rest store e hstep] at herr
      simp at herr
    | none =>
      have hin : d.ID ∈ storedIDs (deployDataToEvent env store d).store := by
        rcases deployDataToEvent_cases env store d with ⟨hm, _, hs, _⟩ | ⟨_, e, he, _, _⟩ |
          ⟨_, _, hs, _⟩
        · rw [hs]; exact hm
        · rw [he] at hstep; simp at hstep
        · rw [hs]
          simp [storedIDs, legacyEvent_UniqueID]
      rw [migrateLoop_cons_ok env d rest store hstep] at herr ⊢
      rcases List.mem_cons.mp hx with rfl | hx
      · exact migrateLoop_storedIDs_mono env rest _ _ hin
      · exact ih _ herr x hx

/-- Over records that are all in the store already, the loop inserts nothing:
every insert is answered with a duplicate key, and the loop is not left early. -/
theorem migrateLoop_all_stored (env : MigrateEnv) (ds : List DeployData) (store : List Event)
    (hall : ∀ d ∈ ds, d.ID ∈ storedIDs store) :
    (migrateLoop env ds store).err = none ∧
    (migrateLoop env ds store).store = store ∧
    (∀ id r, DbCall.RawInsert id r ∈ (migrateLoop env ds store).calls →
      r = some .duplicateKey) ∧
    insertAttempts (migrateLoop env ds store).calls = ds.length := by
  induction ds with
  | nil => simp [migrateLoop, insertAttempts, DbCall.isRawInsert]
  | cons d rest ih =>
    obtain ⟨h1, h2, h3, h4⟩ := ih (fun x hx => hall x (List.mem_cons_of_mem _ hx))
    rcases deployDataToEvent_cases env store d with ⟨_, he, hs, hc⟩ | ⟨hm, _⟩ | ⟨hm, _⟩
    · rw [migrateLoop_cons_ok env d rest store he]
      simp only [hs, hc, h1, h2]
      refine ⟨trivial, trivial, ?_, ?_⟩
      · intro id r hmem
        simp only [List.cons_append, List.nil_append, List.mem_cons, reduceCtorEq,
          DbCall.RawInsert.injEq, false_or] at hmem
        rcases hmem with ⟨_, rfl⟩ | hmem
        · rfl
        · exact h3 id r hmem
      · rw [insertAttempts_next_append, h4]
        simp [insertAttempts, DbCall.isRawInsert]; omega
    · exact absurd (hall d (List.mem_cons_self _ _)) hm
    · exact absurd (hall d (List.mem_cons_self _ _)) hm

/-- A loop over a list splits at any point the first part was not left early. -/
theorem migrateLoop_append (env : MigrateEnv) (pre rest : List DeployData) :
    ∀ store, (migrateLoop env pre store).err = none →
      (migrateLoop env (pre ++ rest) store).err
        = (migrateLoop env rest (migrateLoop env pre store).store).err ∧
      (migrateLoop env (pre ++ rest) store).store
        = (migrateLoop env rest (migrateLoop env pre store).store).store ∧
      insertAttempts (migrateLoop env (pre ++ rest) store).calls
        = pre.length + insertAttempts (migrateLoop env rest (migrateLoop env pre store).store).calls := by
  induction pre with
  | nil => intro store _; simp [migrateLoop]
  | cons d ds ih =>
    intro store herr
    cases hstep : (deployDataToEvent env store d).err with
    | some e =>
      rw [migrateLoop_cons_err env d ds store e hstep] at herr
      simp at herr
    | none =>
      rw [migrateLoop_cons_ok env d ds store hstep] at herr
      obtain ⟨h1, h2, h3⟩ := ih _ herr
      rw [List.cons_append, migrateLoop_cons_ok env d (ds ++ rest) store hstep,
        migrateLoop_cons_ok env d ds store hstep]
      refine ⟨h1, h2, ?_⟩
      simp only [insertAttempts_next_append, deployDataToEvent_attempts, h3, List.length_cons]
      omega

/-- The job when the cursor is exhausted: `iter.Close()` decides the result. -/
theorem MigrateDeploysToEvents_exhausted (env : MigrateEnv) (store : List Event)
    (hc : env.Conn = none) (hl : (migrateLoop env env.deploys store).err = none) :
    MigrateDeploysToEvents env store
      = { err := env.iterClose, store := (migrateLoop env env.deploys store).store,
          calls := [DbCall.Conn, DbCall.Find] ++ (migrateLoop env env.deploys store).calls
            ++ [DbCall.IterClose, DbCall.ConnClose] } := by
  simp only [MigrateDeploysToEvents, hc, hl]

/-- The job when the loop is left by `return err`. -/
theorem MigrateDeploysToEvents_early (env : MigrateEnv) (store : List Event) (e : StoreError)
    (hc : env.Conn = none) (hl : (migrateLoop env env.deploys store).err = some e) :
    MigrateDeploysToEvents env store
      = { err := some e, store := (migrateLoop env env.deploys store).store,
          calls := [DbCall.Conn, DbCall.Find] ++ (migrateLoop env env.deploys store).calls
            ++ [DbCall.ConnClose] } := by
  simp only [MigrateDeploysToEvents, hc, hl]

/-- A run that returns nil connected, was not left early and closed the cursor
without error. -/
theorem MigrateDeploysToEvents_ok (env : MigrateEnv) (store : List Event)
    (h : (MigrateDeploysToEvents env store).err = none) :
    env.Conn = none ∧ (migrateLoop env env.deploys store).err = none ∧ env.iterClose = none := by
  cases hc : env.Conn with
  | some e => simp [MigrateDeploysToEvents, hc] at h
  | none =>
    cases hl : (migrateLoop env env.deploys store).err with
    | some e => rw [MigrateDeploysToEvents_early env store e hc hl] at h; simp at h
    | none => rw [MigrateDeploysToEvents_exhausted env store hc hl] at h; exact ⟨rfl, rfl, h⟩

/-- An insert answered with a duplicate key makes `deployDataToEvent` return
nil and leaves the store as it was. -/
theorem deployDataToEvent_of_dup (env : MigrateEnv) (store : List Event) (data : DeployData)
    (h : DbCall.RawInsert data.ID (some .duplicateKey) ∈ (deployDataToEvent env store data).calls) :
    (deployDataToEvent env store data).err = none ∧
    (deployDataToEvent env store data).store = store := by
  rcases deployDataToEvent_cases env store data with ⟨_, he, hs, _⟩ | ⟨_, e, _, _, hc⟩ |
    ⟨_, _, _, hc⟩
  · exact ⟨he, hs⟩
  · rw [hc] at h; simp at h
  · rw [hc] at h; simp at h

/-- An insert answered with another error makes `deployDataToEvent` return
that error and leaves the store as it was. -/
theorem deployDataToEvent_of_other (env : MigrateEnv) (store : List Event) (data : DeployData)
    (e : ExtError)
    (h : DbCall.RawInsert data.ID (some (.other e)) ∈ (deployDataToEvent env store data).calls) :
    (deployDataToEvent env store data).err = some (.other e) ∧
    (deployDataToEvent env store data).store = store := by
  rcases deployDataToEvent_cases env store data with ⟨_, _, _, hc⟩ | ⟨_, x, he, hs, hc⟩ |
    ⟨_, _, _, hc⟩
  · rw [hc] at h; simp at h
  · rw [hc] at h
    simp at h
    subst h
    exact ⟨he, hs⟩
  · rw [hc] at h; simp at h

/-- C7: the modelled event store answers an insert of a stored id with a
duplicate key and stays unchanged. After a run of `MigrateDeploysToEvents`
that returned nil, a second run over the same collection returns nil, leaves
the store exactly as the first run left it, and has every one of its inserts
(one per legacy record) answered with a duplicate key. Wherever in the
collection an insert is answered with a duplicate key, the loop goes on with
the records after it; wherever it is answered with another error, that error
is returned at once, the store stays as it was and no later record is
processed. -/
theorem MigrateDeploysToEvents_idempotent (env : MigrateEnv) (store : List Event) :
    (∀ s e, e.UniqueID ∈ storedIDs s →
      storeInsert env.insertFault s e = (some .duplicateKey, s)) ∧
    ((MigrateDeploysToEvents env store).err = none →
      (MigrateDeploysToEvents env (MigrateDeploysToEvents env store).store).err = none ∧
      (MigrateDeploysToEvents env (MigrateDeploysToEvents env store).store).store
        = (MigrateDeploysToEvents env store).store ∧
      (∀ id r, DbCall.RawInsert id r
          ∈ (MigrateDeploysToEvents env (MigrateDeploysToEvents env store).store).calls →
        r = some .duplicateKey) ∧
      insertAttempts (MigrateDeploysToEvents env (MigrateDeploysToEvents env store).store).calls
        = env.deploys.length) ∧
    (∀ pre data rest, (migrateLoop env pre store).err = none →
      DbCall.RawInsert data.ID (some .duplicateKey)
        ∈ (deployDataToEvent env (migrateLoop env pre store).store data).calls →
      (migrateLoop env (pre ++ data :: rest) store).err
        = (migrateLoop env rest (migrateLoop env pre store).store).err ∧
      (migrateLoop env (pre ++ data :: rest) store).store
        = (migrateLoop env rest (migrateLoop env pre store).store).store ∧
      insertAttempts (migrateLoop env (pre ++ data :: rest) store).calls
        = pre.length + 1
          + insertAttempts (migrateLoop env rest (migrateLoop env pre store).store).calls) ∧
    (∀ pre data rest e, (migrateLoop env pre store).err = none →
      DbCall.RawInsert data.ID (some (.other e))
        ∈ (deployDataToEvent env (migrateLoop env pre store).store data).calls →
      ((migrateLoop env (pre ++ data :: rest) store).err = some (.other e) ∧
        (migrateLoop env (pre ++ data :: rest) store).store = (migrateLoop env pre store).store ∧
        insertAttempts (migrateLoop env (pre ++ data :: rest) store).calls = pre.length + 1) ∧
      (env.Conn = none → env.deploys = pre ++ data :: rest →
        (MigrateDeploysToEvents env store).err = some (.other e) ∧
        (MigrateDeploysToEvents env store).store = (migrateLoop env pre store).store ∧
        insertAttempts (MigrateDeploysToEvents env store).calls = pre.length + 1)) := by
  refine ⟨?_, ?_, ?_, ?_⟩
  · intro s e h
    have h2 : e.UniqueID ∈ List.map Event.UniqueID s := h
    simp [storeInsert, h2]
  · intro h
    obtain ⟨hc, hl, hi⟩ := MigrateDeploysToEvents_ok env store h
    have hfirst := MigrateDeploysToEvents_exhausted env store hc hl
    have hall := migrateLoop_stored env env.deploys store hl
    obtain ⟨h1, h2, h3, h4⟩ := migrateLoop_all_stored env env.deploys
      (migrateLoop env env.deploys store).store hall
    rw [hfirst]
    simp only []
    rw [MigrateDeploysToEvents_exhausted env _ hc h1]
    refine ⟨hi, h2, ?_, ?_⟩
    · intro id r hmem
      simp only [List.cons_append, List.nil_append, List.mem_cons, List.mem_append,
        reduceCtorEq, false_or, or_false, List.not_mem_nil] at hmem
      exact h3 id r hmem
    · simp only [insertAttempts, List.filter_append, List.length_append] at h4 ⊢
      simp [List.filter, DbCall.isRawInsert, h4]
  · intro pre data rest hpre hdup
    obtain ⟨he, hs⟩ := deployDataToEvent_of_dup env _ data hdup
    obtain ⟨a1, a2, a3⟩ := migrateLoop_append env pre (data :: rest) store hpre
    rw [a1, a2, a3, migrateLoop_cons_ok env data rest _ he, hs]
    refine ⟨rfl, rfl, ?_⟩
    simp only [insertAttempts_next_append, deployDataToEvent_attempts]
    omega
  · intro pre data rest e hpre hother
    obtain ⟨he, hs⟩ := deployDataToEvent_of_other env _ data e hother
    obtain ⟨a1, a2, a3⟩ := migrateLoop_append env pre (data :: rest) store hpre
    have hloop : (migrateLoop env (pre ++ data :: rest) store).err = some (.other e) ∧
        (migrateLoop env (pre ++ data :: rest) store).store = (migrateLoop env pre store).store ∧
        insertAttempts (migrateLoop env (pre ++ data :: rest) store).calls = pre.length + 1 := by
      rw [a1, a2, a3, migrateLoop_cons_err env data rest _ _ he, hs]
      refine ⟨rfl, rfl, ?_⟩
      have := deployDataToEvent_attempts env (migrateLoop env pre store).store data
      simp only [insertAttempts, List.filter_cons, DbCall.isRawInsert] at this ⊢
      simp [this]
    refine ⟨hloop, fun hc hd => ?_⟩
    rw [← hd] at hloop
    rw [MigrateDeploysToEvents_early env store _ hc hloop.1]
    refine ⟨rfl, hloop.2.1, ?_⟩
    have h3 := hloop.2.2
    simp only [insertAttempts, List.filter_append, List.length_append] at h3 ⊢
    simp [List.filter, DbCall.isRawInsert, h3]

/-- C7, at a collection of two legacy records and an empty store: the first
run stores both, the second run succeeds, stores nothing new and has both
inserts answered with a duplicate key. -/
theorem MigrateDeploysToEvents_idempotent_witness :
    storedIDs (MigrateDeploysToEvents
        (migrateEnv [legacyRecord "5a1b" 4000, legacyRecord "5a1c" 2000] (fun _ _ => none))
        []).store = ["5a1b", "5a1c"] ∧
    (MigrateDeploysToEvents
        (migrateEnv [legacyRecord "5a1b" 4000, legacyRecord "5a1c" 2000] (fun _ _ => none))
        (MigrateDeploysToEvents
          (migrateEnv [legacyRecord "5a1b" 4000, legacyRecord "5a1c" 2000] (fun _ _ => none))
          []).store).err = none ∧
    (MigrateDeploysToEvents
        (migrateEnv [legacyRecord "5a1b" 4000, legacyRecord "5a1c" 2000] (fun _ _ => none))
        (MigrateDeploysToEvents
          (migrateEnv [legacyRecord "5a1b" 4000, legacyRecord "5a1c" 2000] (fun _ _ => none))
          []).store).store
      = (MigrateDeploysToEvents
          (migrateEnv [legacyRecord "5a1b" 4000, legacyRecord "5a1c" 2000] (fun _ _ => none))
          []).store :=
  ⟨by decide,
   ((MigrateDeploysToEvents_idempotent
      (migrateEnv [legacyRecord "5a1b" 4000, legacyRecord "5a1c" 2000] (fun _ _ => none))
      []).2.1 (by decide)).1,
   ((MigrateDeploysToEvents_idempotent
      (migrateEnv [legacyRecord "5a1b" 4000, legacyRecord "5a1c" 2000] (fun _ _ => none))
      []).2.1 (by decide)).2.1⟩

/-- The loop itself never closes the cursor. -/
theorem migrateLoop_no_IterClose (env : MigrateEnv) (ds : List DeployData) :
    ∀ store, DbCall.IterClose ∉ (migrateLoop env ds store).calls := by
  induction ds with
  | nil => intro store; simp [migrateLoop]
  | cons d rest ih =>
    intro store
    have hd : DbCall.IterClose ∉ (deployDataToEvent env store d).calls := by
      rw [deployDataToEvent_eq]; simp
    cases herr : (deployDataToEvent env store d).err with
    | some e =>
      rw [migrateLoop_cons_err env d rest store e herr]
      simpa using hd
    | none =>
      rw [migrateLoop_cons_ok env d rest store herr]
      simp only [List.cons_append, List.mem_cons, List.mem_append, reduceCtorEq, false_or,
        not_or]
      exact ⟨hd, ih _⟩

/-- Whenever the loop is left by `return err`, the cursor was opened and the
connection is closed, but `iter.Close()` is not called; when the cursor is
exhausted it is. -/
theorem MigrateDeploysToEvents_cursor (env : MigrateEnv) (store : List Event)
    (hc : env.Conn = none) :
    DbCall.Find ∈ (MigrateDeploysToEvents env store).calls ∧
    DbCall.ConnClose ∈ (MigrateDeploysToEvents env store).calls ∧
    (DbCall.IterClose ∈ (MigrateDeploysToEvents env store).calls ↔
      (migrateLoop env env.deploys store).err = none) := by
  have hn := migrateLoop_no_IterClose env env.deploys store
  cases hl : (migrateLoop env env.deploys store).err with
  | some e =>
    rw [MigrateDeploysToEvents_early env store e hc hl]
    simp [hn]
  | none =>
    rw [MigrateDeploysToEvents_exhausted env store hc hl]
    simp

/-- C8 fails on the code: over a collection of one legacy record whose insert
fails with an error that is not a duplicate key, the job opens the cursor,
returns the error and closes the connection, but never closes the cursor;
over the same collection without the failure the cursor is closed. -/
theorem MigrateDeploysToEvents_early_return_leaves_cursor_open :
    (MigrateDeploysToEvents
        (migrateEnv [legacyRecord "5a1b" 4000] (fun _ _ => some "connection reset")) []).err
      = some (.other "connection reset") ∧
    (MigrateDeploysToEvents
        (migrateEnv [legacyRecord "5a1b" 4000] (fun _ _ => some "connection reset")) []).calls
      = [DbCall.Conn, DbCall.Find, DbCall.Next, DbCall.GetByName "myapp",
         DbCall.RawInsert "5a1b" (some (.other "connection reset")), DbCall.ConnClose] ∧
    DbCall.IterClose ∉ (MigrateDeploysToEvents
        (migrateEnv [legacyRecord "5a1b" 4000] (fun _ _ => some "connection reset")) []).calls ∧
    (MigrateDeploysToEvents (migrateEnv [legacyRecord "5a1b" 4000] (fun _ _ => none)) []).calls
      = [DbCall.Conn, DbCall.Find, DbCall.Next, DbCall.GetByName "myapp",
         DbCall.RawInsert "5a1b" none, DbCall.Next, DbCall.IterClose, DbCall.ConnClose] := by
  refine ⟨by decide, by decide, by decide, by decide⟩

end Tsuru
